import Mathlib

/-!
Verification development for a GPX track parser and its geometry layer.

The source is a small Rust crate (`src/gpx/{trkpt,segment,track,err}.rs`).
The embedding below translates it shallowly into Lean:

* `f64` values that the claims exercise are modelled exactly: parsing and
  elevation arithmetic over `ℚ` (all claim inputs are exactly representable
  and all operations involved are exact in IEEE double as well), and the
  transcendental haversine geometry over `ℝ`.
* The XML tokenizer (`quick_xml`) is an external collaborator.  Its output
  is modelled as a list of structural events (`Event`); end-of-list stands
  for `Event::Eof`.  Text events carry already-unescaped strings and
  attribute values are valid UTF-8 strings, so the tokenizer-level failure
  paths (`InternalError::Io`, `InternalError::Xml`) are unreachable in the
  model; they are kept in the error type to mirror the source.
* Rust's `str::parse::<f64>` is modelled by `parse_f64`, covering finite
  decimal literals (optional sign, digits with optional fraction, optional
  exponent); the special spellings `inf`/`infinity`/`nan` have no finite
  value and are outside the model.
-/

/-- Model of `TrackPoint` (src/gpx/trkpt.rs).  `f64` fields are modelled
as `ℚ` (see module comment). -/
structure TrackPoint where
  lat : ℚ
  lon : ℚ
  time : Option String
  ele : Option ℚ
  deriving DecidableEq, Repr

/-- Model of the internal error tier `InternalError` (src/gpx/err.rs).
`Io` drops its payload (an `std::io::Error`, unreachable in the model). -/
inductive InternalError where
  | Io : InternalError
  | Xml : String → InternalError
  | InvalidTrackPoint : String → InternalError
  deriving DecidableEq, Repr

/-- Model of the public error tier `Error` (src/gpx/err.rs). -/
inductive Error where
  | Input : Error
  | InvalidFormat : Error
  | InvalidData : Error
  deriving DecidableEq, Repr

/-- Model of `impl From<InternalError> for Error` (src/gpx/err.rs). -/
def internalToError : InternalError → Error
  | .Io => .Input
  | .Xml _ => .InvalidFormat
  | .InvalidTrackPoint _ => .InvalidData

/-- Consume a maximal run of ASCII digits, returning the accumulated value,
the number of digits consumed, and the rest of the characters.  Helper for
`parse_f64`. -/
def takeDigits : List Char → ℕ → ℕ → ℕ × ℕ × List Char
  | c :: cs, acc, n =>
      if c.isDigit then takeDigits cs (10 * acc + (c.toNat - 48)) (n + 1)
      else (acc, n, c :: cs)
  | [], acc, n => (acc, n, [])

/-- Consume an optional leading sign, returning `-1` or `1`. -/
def takeSign : List Char → ℚ × List Char
  | '-' :: cs => (-1, cs)
  | '+' :: cs => (1, cs)
  | cs => (1, cs)

/-- Model of Rust `str::parse::<f64>` restricted to finite decimal literals:
`[+-]? (digits [. digits?] | . digits) ([eE] [+-]? digits)?`.  Returns
`none` exactly when the string is not such a literal. -/
def parse_f64 (str : String) : Option ℚ :=
  let (sgn, cs0) := takeSign str.toList
  let (ip, ic, cs1) := takeDigits cs0 0 0
  let (fp, fc, cs2) :=
    match cs1 with
    | '.' :: rest => takeDigits rest 0 0
    | _ => (0, 0, cs1)
  if ic + fc = 0 then none
  else
    let mant : ℚ := sgn * ((ip : ℚ) + (fp : ℚ) / (10 ^ fc : ℚ))
    match cs2 with
    | [] => some mant
    | c :: rest =>
      if c = 'e' ∨ c = 'E' then
        let (esgn, cs3) := takeSign rest
        let (ev, ec, cs4) := takeDigits cs3 0 0
        if ec = 0 ∨ cs4 ≠ [] then none
        else some (mant * (10 : ℚ) ^ (if esgn = 1 then (ev : ℤ) else -(ev : ℤ)))
      else none

/-- Model of the field-update function type `Applyfn` (src/gpx/trkpt.rs).
Rust mutates the point in place; the model returns the updated point. -/
abbrev Applyfn := TrackPoint → String → Except InternalError TrackPoint

/-- Model of `apply_ele` (src/gpx/trkpt.rs). -/
def apply_ele : Applyfn := fun pt s =>
  match parse_f64 s with
  | some v => .ok { pt with ele := some v }
  | none => .error (.InvalidTrackPoint "ele is not a number")

/-- Model of `apply_time` (src/gpx/trkpt.rs). -/
def apply_time : Applyfn := fun pt s => .ok { pt with time := some s }

/-- Model of the `TextHandler` entries of the static `HANDLERS` table. -/
structure TextHandler where
  tag : String
  apply : Applyfn

/-- Model of the static `HANDLERS` table (src/gpx/trkpt.rs). -/
def HANDLERS : List TextHandler :=
  [⟨"time", apply_time⟩, ⟨"ele", apply_ele⟩]

/-- Model of `find_handler` (src/gpx/trkpt.rs). -/
def find_handler (tag : String) : Option Applyfn :=
  (HANDLERS.find? (fun h => h.tag == tag)).map (·.apply)

/-- Model of `parse_attr_f64` (src/gpx/trkpt.rs).  Attribute values are
strings in the model, so the UTF-8 validation step always succeeds. -/
def parse_attr_f64 (value : String) (name : String) : Except InternalError ℚ :=
  match parse_f64 value with
  | some v => .ok v
  | none => .error (.InvalidTrackPoint (name ++ " is not a number"))

/-- Model of the attribute loop of `parse_trkpt` (src/gpx/trkpt.rs):
threads the `lat`/`lon` options through the attribute list, parsing each
`lat`/`lon` attribute and ignoring any other attribute. -/
def scanAttrs : List (String × String) → Option ℚ → Option ℚ →
    Except InternalError (Option ℚ × Option ℚ)
  | [], lat, lon => .ok (lat, lon)
  | (k, v) :: rest, lat, lon =>
      if k = "lat" then do
        let q ← parse_attr_f64 v "lat"
        scanAttrs rest (some q) lon
      else if k = "lon" then do
        let q ← parse_attr_f64 v "lon"
        scanAttrs rest lat (some q)
      else scanAttrs rest lat lon

/-- Model of `parse_trkpt` (src/gpx/trkpt.rs): the attributes of the
`trkpt` start tag are the list of key/value pairs. -/
def parse_trkpt (attrs : List (String × String)) : Except InternalError TrackPoint := do
  match ← scanAttrs attrs none none with
  | (some lat, some lon) => .ok { lat := lat, lon := lon, time := none, ele := none }
  | _ => .error (.InvalidTrackPoint "trkpt missing lat or lon.")

/-- Model of the structural events delivered by the tokenizer
(`quick_xml::events::Event`).  `start`/`stop` are `Event::Start`/`Event::End`
with the element name (and attributes for `start`); `text` is `Event::Text`
carrying the unescaped text; `skip` stands for every event kind that the
source handles with its catch-all `_ => {}` arm (comments, declarations,
CData, ...).  `Event::Eof` is the end of the event list. -/
inductive Event where
  | start : String → List (String × String) → Event
  | stop : String → Event
  | text : String → Event
  | skip : Event

/-- Model of `Segment` (src/gpx/segment.rs). -/
structure Segment where
  points : List TrackPoint
  deriving DecidableEq, Repr

/-- Model of `Segment::new`. -/
def Segment.new (points : List TrackPoint) : Segment := ⟨points⟩

/-- Model of `Track` (src/gpx/track.rs). -/
structure Track where
  segments : List Segment
  deriving DecidableEq, Repr

/-- Model of `Track::new`. -/
def Track.new (segments : List Segment) : Track := ⟨segments⟩

/-- Model of `Track::segment_count`. -/
def Track.segment_count (t : Track) : ℕ := t.segments.length

/-- Model of `slice::windows(2)`: the list of adjacent pairs, empty for
lists of fewer than two elements. -/
def windows2 : List TrackPoint → List (TrackPoint × TrackPoint)
  | a :: b :: rest => (a, b) :: windows2 (b :: rest)
  | _ => []

/-- Model of the loop body of `Segment::total_ascent_descent_m`
(src/gpx/segment.rs): one window updates the `(ascent, descent)`
accumulator. -/
def stepAD (acc : ℚ × ℚ) (w : TrackPoint × TrackPoint) : ℚ × ℚ :=
  match w.1.ele, w.2.ele with
  | some e1, some e2 =>
      let delta := e2 - e1
      if delta > 0 then (acc.1 + delta, acc.2)
      else if delta < 0 then (acc.1, acc.2 + (-delta))
      else acc
  | _, _ => acc

/-- Model of `Segment::total_ascent_descent_m` (src/gpx/segment.rs). -/
def Segment.total_ascent_descent_m (s : Segment) : ℚ × ℚ :=
  (windows2 s.points).foldl stepAD (0, 0)

/-- Model of the loop of `Track::total_ascent_descent_m`
(src/gpx/track.rs). -/
def Track.total_ascent_descent_m (t : Track) : ℚ × ℚ :=
  t.segments.foldl
    (fun acc s =>
      let ud := s.total_ascent_descent_m
      (acc.1 + ud.1, acc.2 + ud.2))
    (0, 0)

/-- Model of `EARTH_RADIUS_M` (src/gpx/segment.rs). -/
noncomputable def EARTH_RADIUS_M : ℝ := 6371000

/-- Model of Rust `f64::to_radians`: multiplication by `π / 180`. -/
noncomputable def to_radians (x : ℝ) : ℝ := x * (Real.pi / 180)

/-- Model of Rust `f64::atan2` (`y.atan2 x`) on the real numbers, by the
standard case split of the two-argument arctangent. -/
noncomputable def atan2 (y x : ℝ) : ℝ :=
  if 0 < x then Real.arctan (y / x)
  else if x < 0 ∧ 0 ≤ y then Real.arctan (y / x) + Real.pi
  else if x < 0 ∧ y < 0 then Real.arctan (y / x) - Real.pi
  else if x = 0 ∧ 0 < y then Real.pi / 2
  else if x = 0 ∧ y < 0 then -(Real.pi / 2)
  else 0

/-- Model of `haversine_m` (src/gpx/segment.rs), over `ℝ`. -/
noncomputable def haversine_m (pa pb : TrackPoint) : ℝ :=
  let dlat := to_radians ((pb.lat : ℝ) - (pa.lat : ℝ))
  let dlon := to_radians ((pb.lon : ℝ) - (pa.lon : ℝ))
  let lat1 := to_radians (pa.lat : ℝ)
  let lat2 := to_radians (pb.lat : ℝ)
  let h := Real.sin (dlat / 2) ^ 2 +
    Real.cos lat1 * Real.cos lat2 * Real.sin (dlon / 2) ^ 2
  let c := 2 * atan2 (Real.sqrt h) (Real.sqrt (1 - h))
  EARTH_RADIUS_M * c

/-- Model of `Segment::total_distance_m` (src/gpx/segment.rs). -/
noncomputable def Segment.total_distance_m (s : Segment) : ℝ :=
  ((windows2 s.points).map (fun w => haversine_m w.1 w.2)).sum

/-- Model of `Track::total_distance_m` (src/gpx/track.rs). -/
noncomputable def Track.total_distance_m (t : Track) : ℝ :=
  (t.segments.map Segment.total_distance_m).sum

/-- Working state of the `parse_track` loop (src/gpx/trkpt.rs):
the accumulated segments, the current segment point buffer, the bound
field handler, and the point under construction. -/
structure TrackState where
  segments : List Segment
  current_points : List TrackPoint
  current_handler : Option Applyfn
  current_point : Option TrackPoint

/-- Model of one iteration of the `parse_track` event loop
(src/gpx/trkpt.rs, the `match` in the `loop`).  The arm order of the Rust
`match` is reproduced by the name tests. -/
def trackStep (st : TrackState) : Event → Except InternalError TrackState
  | .start name attrs =>
      if name = "trkseg" then
        .ok { st with current_points := [] }
      else if name = "trkpt" then do
        let pt ← parse_trkpt attrs
        .ok { st with current_point := some pt, current_handler := none }
      else
        .ok (if st.current_point.isSome then
              { st with current_handler := find_handler name }
            else st)
  | .stop name =>
      if name = "trkseg" then
        .ok (if st.current_points ≠ [] then
              { st with segments := st.segments ++ [Segment.new st.current_points],
                        current_points := [] }
            else st)
      else if name = "trkpt" then
        .ok (match st.current_point with
             | some pt => { st with current_points := st.current_points ++ [pt],
                                    current_point := none, current_handler := none }
             | none => { st with current_point := none, current_handler := none })
      else
        .ok { st with current_handler := none }
  | .text s =>
      match st.current_point, st.current_handler with
      | some pt, some apply => do
          let pt' ← apply pt s
          .ok { st with current_point := some pt' }
      | _, _ => .ok st
  | .skip => .ok st

/-- Runs the `parse_track` loop over the remaining events. -/
def trackRun (st : TrackState) : List Event → Except InternalError TrackState
  | [] => .ok st
  | e :: rest => do trackRun (← trackStep st e) rest

/-- Model of `parse_track` (src/gpx/trkpt.rs): the reader is the event
list delivered by the tokenizer. -/
def parse_track (events : List Event) : Except Error Track :=
  match trackRun ⟨[], [], none, none⟩ events with
  | .ok st => .ok (Track.new st.segments)
  | .error e => .error (internalToError e)

/-- Working state of the `parse_track_points` loop (src/gpx/trkpt.rs). -/
structure PointsState where
  points : List TrackPoint
  current : Option TrackPoint
  current_handler : Option Applyfn

/-- Model of one iteration of the `parse_track_points` event loop
(src/gpx/trkpt.rs).  Note the arm order: `Start(trkpt)`, generic `Start`,
`Text`, `End(trkpt)`, generic `End`; in particular the `End(trkpt)` arm
does not clear the bound handler. -/
def pointsStep (st : PointsState) : Event → Except InternalError PointsState
  | .start name attrs =>
      if name = "trkpt" then do
        let pt ← parse_trkpt attrs
        .ok { st with current := some pt, current_handler := none }
      else
        .ok { st with current_handler :=
                if st.current.isSome then find_handler name else none }
  | .text s =>
      match st.current, st.current_handler with
      | some pt, some apply => do
          let pt' ← apply pt s
          .ok { st with current := some pt' }
      | _, _ => .ok st
  | .stop name =>
      if name = "trkpt" then
        .ok (match st.current with
             | some pt => { st with points := st.points ++ [pt], current := none }
             | none => { st with current := none })
      else
        .ok { st with current_handler := none }
  | .skip => .ok st

/-- Runs the `parse_track_points` loop over the remaining events. -/
def pointsRun (st : PointsState) : List Event → Except InternalError PointsState
  | [] => .ok st
  | e :: rest => do pointsRun (← pointsStep st e) rest

/-- Model of `parse_track_points` (src/gpx/trkpt.rs). -/
def parse_track_points (events : List Event) : Except Error (List TrackPoint) :=
  match pointsRun ⟨[], none, none⟩ events with
  | .ok st => .ok st.points
  | .error e => .error (internalToError e)

/-! ## Well-formed documents

The claims about the two entry points quantify over well-formed inputs.
A well-formed input is the event stream of a properly nested document:
a forest of nodes, flattened to events in document order.  `Node.elem`
produces a matching start/stop pair around its flattened children. -/

mutual
inductive Node where
  | elem : String → List (String × String) → Forest → Node
  | txt : String → Node
  | misc : Node
inductive Forest where
  | nil : Forest
  | cons : Node → Forest → Forest
end

mutual
def flattenNode : Node → List Event
  | .elem n a cs => Event.start n a :: (flattenForest cs ++ [Event.stop n])
  | .txt s => [Event.text s]
  | .misc => [Event.skip]
def flattenForest : Forest → List Event
  | .nil => []
  | .cons nd f => flattenNode nd ++ flattenForest f
end

mutual
/-- No `trkpt` element occurs anywhere in the node. -/
def trkptFreeN : Node → Bool
  | .elem n _ cs => n ≠ "trkpt" && trkptFreeF cs
  | _ => true
/-- No `trkpt` element occurs anywhere in the forest. -/
def trkptFreeF : Forest → Bool
  | .nil => true
  | .cons nd f => trkptFreeN nd && trkptFreeF f
end

mutual
/-- No `trkseg` element occurs anywhere in the node. -/
def segFreeN : Node → Bool
  | .elem n _ cs => n ≠ "trkseg" && segFreeF cs
  | _ => true
/-- No `trkseg` element occurs anywhere in the forest. -/
def segFreeF : Forest → Bool
  | .nil => true
  | .cons nd f => segFreeN nd && segFreeF f
end

mutual
/-- No `trkpt` element is nested strictly inside another `trkpt` element. -/
def noNestPtN : Node → Bool
  | .elem n _ cs => if n = "trkpt" then trkptFreeF cs else noNestPtF cs
  | _ => true
/-- No `trkpt` element is nested strictly inside another `trkpt` element. -/
def noNestPtF : Forest → Bool
  | .nil => true
  | .cons nd f => noNestPtN nd && noNestPtF f
end

mutual
/-- Every `trkpt` element has a `trkseg` ancestor. -/
def allInsideN : Node → Bool
  | .elem n _ cs =>
      if n = "trkseg" then true
      else if n = "trkpt" then false
      else allInsideF cs
  | _ => true
/-- Every `trkpt` element has a `trkseg` ancestor. -/
def allInsideF : Forest → Bool
  | .nil => true
  | .cons nd f => allInsideN nd && allInsideF f
end

mutual
/-- No `trkseg` element is nested strictly inside another `trkseg` element. -/
def noNestSegN : Node → Bool
  | .elem n _ cs => if n = "trkseg" then segFreeF cs else noNestSegF cs
  | _ => true
/-- No `trkseg` element is nested strictly inside another `trkseg` element. -/
def noNestSegF : Forest → Bool
  | .nil => true
  | .cons nd f => noNestSegN nd && noNestSegF f
end

mutual
/-- The `parse_track` loop applied to the events of one node. -/
def trackWalkN (st : TrackState) : Node → Except InternalError TrackState
  | .elem n a cs => do
      let st1 ← trackStep st (.start n a)
      let st2 ← trackWalkF st1 cs
      trackStep st2 (.stop n)
  | .txt s => trackStep st (.text s)
  | .misc => trackStep st .skip
/-- The `parse_track` loop applied to the events of a forest. -/
def trackWalkF (st : TrackState) : Forest → Except InternalError TrackState
  | .nil => .ok st
  | .cons nd f => do trackWalkF (← trackWalkN st nd) f
end

mutual
/-- The `parse_track_points` loop applied to the events of one node. -/
def pointsWalkN (st : PointsState) : Node → Except InternalError PointsState
  | .elem n a cs => do
      let st1 ← pointsStep st (.start n a)
      let st2 ← pointsWalkF st1 cs
      pointsStep st2 (.stop n)
  | .txt s => pointsStep st (.text s)
  | .misc => pointsStep st .skip
/-- The `parse_track_points` loop applied to the events of a forest. -/
def pointsWalkF (st : PointsState) : Forest → Except InternalError PointsState
  | .nil => .ok st
  | .cons nd f => do pointsWalkF (← pointsWalkN st nd) f
end

/-! ## Reference (spec-level) functions

These definitions follow the specification text rather than the imperative
loops: a point is built compositionally from its element subtree, and the
document yields its points in document order.  They are compared with the
streaming parsers in the refinement theorems. -/

mutual
/-- Modelled from the spec: the effect that one child node of an open
point element has on the point under construction and the bound handler,
for the flat entry point: a child element binds the handler looked up by
name for its own children and unbinds it at its end; text is applied
through the bound handler.  Faithful to `parse_track_points` on subtrees
that contain no nested `trkpt`. -/
def flatBuildN (pt : TrackPoint) (h : Option Applyfn) :
    Node → Except InternalError (TrackPoint × Option Applyfn)
  | .elem n _ cs => do
      let r ← flatBuildF pt (find_handler n) cs
      .ok (r.1, none)
  | .txt s =>
      match h with
      | some f => do
          let pt' ← f pt s
          .ok (pt', h)
      | none => .ok (pt, h)
  | .misc => .ok (pt, h)
/-- Modelled from the spec: fold of `flatBuildN` over the children of an
open point element. -/
def flatBuildF (pt : TrackPoint) (h : Option Applyfn) :
    Forest → Except InternalError (TrackPoint × Option Applyfn)
  | .nil => .ok (pt, h)
  | .cons nd f => do
      let r ← flatBuildN pt h nd
      flatBuildF r.1 r.2 f
end

mutual
/-- Modelled from the spec: all points of the document in document order,
for the flat entry point — every `trkpt` element, wherever it occurs,
contributes the point built from its attributes and its subtree. -/
def allFlatN : Node → Except InternalError (List TrackPoint)
  | .elem n a cs =>
      if n = "trkpt" then do
        let pt0 ← parse_trkpt a
        let r ← flatBuildF pt0 none cs
        .ok [r.1]
      else allFlatF cs
  | .txt _ => .ok []
  | .misc => .ok []
/-- Modelled from the spec: concatenation of `allFlatN` over a forest, in
document order. -/
def allFlatF : Forest → Except InternalError (List TrackPoint)
  | .nil => .ok []
  | .cons nd f => do
      let l1 ← allFlatN nd
      let l2 ← allFlatF f
      .ok (l1 ++ l2)
end

mutual
/-- Modelled from the spec: like `flatBuildN` but with the handler
discipline of the segment-aware entry point, whose loop treats `trkseg`
start/end tags specially: they leave the bound handler unchanged. -/
def trackBuildN (pt : TrackPoint) (h : Option Applyfn) :
    Node → Except InternalError (TrackPoint × Option Applyfn)
  | .elem n _ cs =>
      if n = "trkseg" then trackBuildF pt h cs
      else do
        let r ← trackBuildF pt (find_handler n) cs
        .ok (r.1, none)
  | .txt s =>
      match h with
      | some f => do
          let pt' ← f pt s
          .ok (pt', h)
      | none => .ok (pt, h)
  | .misc => .ok (pt, h)
/-- Modelled from the spec: fold of `trackBuildN` over the children of an
open point element, segment-aware entry point. -/
def trackBuildF (pt : TrackPoint) (h : Option Applyfn) :
    Forest → Except InternalError (TrackPoint × Option Applyfn)
  | .nil => .ok (pt, h)
  | .cons nd f => do
      let r ← trackBuildN pt h nd
      trackBuildF r.1 r.2 f
end

/-- The point value a `trkpt` element with attributes `a` and children `cs`
builds under the segment-aware entry point, or nothing if building fails. -/
def builtValue (a : List (String × String)) (cs : Forest) : List TrackPoint :=
  match (do
    let pt0 ← parse_trkpt a
    trackBuildF pt0 none cs : Except InternalError (TrackPoint × Option Applyfn)) with
  | .ok r => [r.1]
  | .error _ => []

mutual
/-- The built values of every `trkpt` element in the node, document order. -/
def allTrackValsN : Node → List TrackPoint
  | .elem n a cs => if n = "trkpt" then builtValue a cs else allTrackValsF cs
  | _ => []
/-- The built values of every `trkpt` element in the forest. -/
def allTrackValsF : Forest → List TrackPoint
  | .nil => []
  | .cons nd f => allTrackValsN nd ++ allTrackValsF f
end

mutual
/-- Modelled from the spec: the built values of the `trkpt` elements that
are enclosed in some `trkseg` element, seen from outside any `trkseg`. -/
def insideValsN : Node → List TrackPoint
  | .elem n _ cs =>
      if n = "trkseg" then allTrackValsF cs
      else if n = "trkpt" then []
      else insideValsF cs
  | _ => []
/-- Modelled from the spec: concatenation of `insideValsN` over a forest. -/
def insideValsF : Forest → List TrackPoint
  | .nil => []
  | .cons nd f => insideValsN nd ++ insideValsF f
end

/-- Modelled from the spec: per-pair cumulative-ascent contribution — the
positive elevation delta of a consecutive pair, zero when the delta is not
positive or either elevation is missing. -/
def specPairAscent (w : TrackPoint × TrackPoint) : ℚ :=
  match w.1.ele, w.2.ele with
  | some e1, some e2 => if e2 - e1 > 0 then e2 - e1 else 0
  | _, _ => 0

/-- Modelled from the spec: per-pair cumulative-descent contribution — the
magnitude of a negative elevation delta of a consecutive pair, zero when
the delta is not negative or either elevation is missing. -/
def specPairDescent (w : TrackPoint × TrackPoint) : ℚ :=
  match w.1.ele, w.2.ele with
  | some e1, some e2 => if e2 - e1 < 0 then e1 - e2 else 0
  | _, _ => 0

/-- Modelled from the spec: the sum of pairwise haversine distances over
consecutive points, written as a direct recursion over the point list. -/
noncomputable def specPathDistance : List TrackPoint → ℝ
  | a :: b :: rest => haversine_m a b + specPathDistance (b :: rest)
  | _ => 0

/-! ## Invariants and relations used by the proofs -/

/-- Handlers ever bound by the parsers: none, the timestamp updater, or the
elevation updater. -/
def goodHandler (h : Option Applyfn) : Prop :=
  h = none ∨ h = some apply_time ∨ h = some apply_ele

/-- Lockstep relation between the working states of the two entry points:
the open points agree, the segment-aware loop keeps no handler bound while
no point is open, the bound handlers agree while a point is open, and the
flat list collects exactly the flushed segments followed by the current
segment buffer. -/
def RCore (st : TrackState) (pst : PointsState) : Prop :=
  pst.current = st.current_point ∧
  (st.current_point = none → st.current_handler = none) ∧
  (∀ pt, st.current_point = some pt → pst.current_handler = st.current_handler) ∧
  pst.points = st.segments.flatMap Segment.points ++ st.current_points

/-- Lockstep relation between the results of the two loops: they fail with
the same internal error, or both succeed in related states. -/
def LockRel (a : Except InternalError TrackState) (b : Except InternalError PointsState) : Prop :=
  (∃ e, a = .error e ∧ b = .error e) ∨
  (∃ st' pst', a = .ok st' ∧ b = .ok pst' ∧ RCore st' pst')

/-- The top-level variant of `RCore`: additionally no point is open and the
segment buffer is empty. -/
def RTop (st : TrackState) (pst : PointsState) : Prop :=
  RCore st pst ∧ st.current_point = none ∧ st.current_points = []

/-- The top-level variant of `LockRel`. -/
def LockRelTop (a : Except InternalError TrackState) (b : Except InternalError PointsState) : Prop :=
  (∃ e, a = .error e ∧ b = .error e) ∨
  (∃ st' pst', a = .ok st' ∧ b = .ok pst' ∧ RTop st' pst')

/-- Correspondence between the in-point builder result and the walk of the
segment-aware loop over the children of an open point element: they fail
with the same error, or the walk carries the built point and handler while
leaving the flushed segments unchanged and only ever shrinking the open
segment buffer. -/
def TBRel (st : TrackState)
    (res : Except InternalError (TrackPoint × Option Applyfn))
    (w : Except InternalError TrackState) : Prop :=
  (∃ e, res = .error e ∧ w = .error e) ∨
  (∃ pt' h' st', res = .ok (pt', h') ∧ w = .ok st' ∧
    st'.current_point = some pt' ∧ st'.current_handler = h' ∧
    st'.segments = st.segments ∧
    ∀ x ∈ st'.current_points, x ∈ st.current_points)

/-! ## Concrete example inputs used by witnesses and counterexamples -/

/-- The event stream of the two-segment document of the spec and of the
`parse_multiple_trkseg` test: elevations `[100, 110]` and `[110, 105]`. -/
def evsTwoSegs : List Event :=
  [ .start "gpx" [], .start "trk" [],
    .start "trkseg" [],
    .start "trkpt" [("lat", "0.0"), ("lon", "0.0")],
    .start "ele" [], .text "100", .stop "ele", .stop "trkpt",
    .start "trkpt" [("lat", "0.0"), ("lon", "0.001")],
    .start "ele" [], .text "110", .stop "ele", .stop "trkpt",
    .stop "trkseg",
    .start "trkseg" [],
    .start "trkpt" [("lat", "0.0"), ("lon", "0.001")],
    .start "ele" [], .text "110", .stop "ele", .stop "trkpt",
    .start "trkpt" [("lat", "0.0"), ("lon", "0.002")],
    .start "ele" [], .text "105", .stop "ele", .stop "trkpt",
    .stop "trkseg",
    .stop "trk", .stop "gpx" ]

/-- A document with one empty segment and one one-point segment. -/
def evsEmptyAndOne : List Event :=
  [ .start "trkseg" [], .stop "trkseg",
    .start "trkseg" [],
    .start "trkpt" [("lat", "1"), ("lon", "2")], .stop "trkpt",
    .stop "trkseg" ]

/-- The track that `evsEmptyAndOne` parses into. -/
def trackOnePoint : Track :=
  Track.new [Segment.new [⟨1, 2, none, none⟩]]

/-- A well-formed document in which a `trkpt` element that is outside every
`trkseg` element contains another `trkpt` element. -/
def forestNestedPt : Forest :=
  .cons (.elem "trkpt" [("lat", "1"), ("lon", "1")]
          (.cons (.elem "trkpt" [("lat", "2"), ("lon", "2")] .nil) .nil)) .nil

/-- A well-formed document in which every `trkpt` element lies inside a
`trkseg` element, but a `trkseg` element is nested (through a `trkpt`)
inside another `trkseg` element. -/
def forestNestedSeg : Forest :=
  .cons (.elem "trkseg" []
          (.cons (.elem "trkpt" [("lat", "1"), ("lon", "1")] .nil)
          (.cons (.elem "trkpt" [("lat", "2"), ("lon", "2")]
                   (.cons (.elem "trkseg" [] .nil) .nil)) .nil))) .nil

/-- A well-formed document with one point outside any segment followed by a
segment with one point, with no nested `trkpt` elements. -/
def forestOutside : Forest :=
  .cons (.elem "trkpt" [("lat", "9"), ("lon", "9")] .nil)
  (.cons (.elem "trkseg" []
           (.cons (.elem "trkpt" [("lat", "1"), ("lon", "2")] .nil) .nil)) .nil)

/-- A small well-formed document for the lockstep witness: a wrapper
element, a segment with two points, one with an elevation child. -/
def forestWfSmall : Forest :=
  .cons (.elem "gpx" []
          (.cons (.elem "trkseg" []
                   (.cons (.elem "trkpt" [("lat", "1"), ("lon", "2")]
                            (.cons (.elem "ele" [] (.cons (.txt "7") .nil)) .nil))
                   (.cons (.elem "trkpt" [("lat", "3"), ("lon", "4")] .nil) .nil))) .nil)) .nil

/-! ## Theorems -/

deriving instance DecidableEq for Except

theorem stepAD_eq (acc : ℚ × ℚ) (w : TrackPoint × TrackPoint) :
    stepAD acc w = (acc.1 + specPairAscent w, acc.2 + specPairDescent w) := by
  rcases w with ⟨a, b⟩
  cases ha : a.ele <;> cases hb : b.ele <;>
    simp only [stepAD, specPairAscent, specPairDescent, ha, hb]
  · rw [Prod.ext_iff]
    constructor <;> simp
  · rw [Prod.ext_iff]
    constructor <;> simp
  · rw [Prod.ext_iff]
    constructor <;> simp
  · split_ifs <;>
      first
        | (exfalso; linarith)
        | (rw [Prod.ext_iff]; constructor <;> simp)

theorem foldl_stepAD (ws : List (TrackPoint × TrackPoint)) :
    ∀ acc : ℚ × ℚ, ws.foldl stepAD acc =
      (acc.1 + (ws.map specPairAscent).sum, acc.2 + (ws.map specPairDescent).sum) := by
  induction ws with
  | nil => intro acc; simp
  | cons w ws ih =>
      intro acc
      simp only [List.foldl_cons, List.map_cons, List.sum_cons, ih, stepAD_eq]
      rw [Prod.mk.injEq]
      exact ⟨by ring, by ring⟩

/-- C1: the ascent/descent fold of `Segment::total_ascent_descent_m` is the
pairwise sum, over consecutive points, of the spec classification: a
positive elevation delta contributes itself to cumulative ascent, a
negative delta contributes its magnitude to cumulative descent, a zero
delta contributes nothing, and a pair in which either point has no
elevation contributes zero to both totals regardless of the other point. -/
theorem ascent_descent_is_pairwise_classification (s : Segment) :
    (s.total_ascent_descent_m.1 = ((windows2 s.points).map specPairAscent).sum ∧
     s.total_ascent_descent_m.2 = ((windows2 s.points).map specPairDescent).sum) ∧
    (∀ a b : TrackPoint, (a.ele = none ∨ b.ele = none) →
      specPairAscent (a, b) = 0 ∧ specPairDescent (a, b) = 0) := by
  constructor
  · unfold Segment.total_ascent_descent_m
    rw [foldl_stepAD]
    simp
  · intro a b hn
    rcases hn with hn | hn
    · simp [specPairAscent, specPairDescent, hn]
    · cases ha : a.ele <;> simp [specPairAscent, specPairDescent, ha, hn]

/-- Witness for the hypothesis-bearing part of the C1 theorem, at a pair
whose first point has no elevation while the second one does. -/
theorem ascent_descent_is_pairwise_classification_witness :
    specPairAscent (⟨0, 0, none, none⟩, ⟨0, 0, none, some 5⟩) = 0 ∧
    specPairDescent (⟨0, 0, none, none⟩, ⟨0, 0, none, some 5⟩) = 0 :=
  (ascent_descent_is_pairwise_classification (Segment.new [])).2 _ _ (Or.inl rfl)

theorem windows2_dist_sum : ∀ l : List TrackPoint,
    ((windows2 l).map (fun w => haversine_m w.1 w.2)).sum = specPathDistance l
  | [] => by simp [windows2, specPathDistance]
  | [a] => by simp [windows2, specPathDistance]
  | a :: b :: rest => by
      simp only [windows2, specPathDistance, List.map_cons, List.sum_cons,
        windows2_dist_sum (b :: rest)]

/-- C6: `Segment::total_distance_m` equals the sum of pairwise haversine
distances over consecutive points, and is zero for a segment with zero or
one points. -/
theorem total_distance_is_pairwise_haversine (s : Segment) :
    s.total_distance_m = specPathDistance s.points ∧
    (s.points.length ≤ 1 → s.total_distance_m = 0) := by
  constructor
  · unfold Segment.total_distance_m
    exact windows2_dist_sum s.points
  · intro hlen
    unfold Segment.total_distance_m
    match h : s.points with
    | [] => simp [windows2]
    | [a] => simp [windows2]
    | a :: b :: rest => rw [h] at hlen; simp at hlen

/-- Witness for the hypothesis-bearing part of the C6 theorem, at a
one-point segment. -/
theorem total_distance_is_pairwise_haversine_witness :
    (Segment.new [⟨1, 2, none, none⟩]).total_distance_m = 0 :=
  (total_distance_is_pairwise_haversine (Segment.new [⟨1, 2, none, none⟩])).2 (by decide)

/-- C9: `parse_track` is deterministic — in the embedding it is a pure
function of the event stream, so byte-for-byte identical inputs yield
structurally equal `Track` values (structural equality of `Track` is
componentwise equality of segments, points and their fields). -/
theorem parse_track_deterministic (evs1 evs2 : List Event) (h : evs1 = evs2)
    (t1 t2 : Track) (h1 : parse_track evs1 = .ok t1)
    (h2 : parse_track evs2 = .ok t2) : t1 = t2 := by
  subst h
  rw [h1] at h2
  injection h2

/-- Witness for C9 at a concrete one-point document. -/
theorem parse_track_deterministic_witness : trackOnePoint = trackOnePoint :=
  parse_track_deterministic evsEmptyAndOne evsEmptyAndOne rfl _ _
    (by with_unfolding_all decide) (by with_unfolding_all decide)

/-- C5: the two-segment document with elevations `[100, 110]` and
`[110, 105]` parses into a track with two segments and cumulative
ascent/descent exactly `(10, 5)`. -/
theorem two_segment_document_statistics :
    (parse_track evsTwoSegs).map Track.segment_count = .ok 2 ∧
    (parse_track evsTwoSegs).map Track.total_ascent_descent_m = .ok (10, 5) := by
  constructor <;> with_unfolding_all decide

/-- C10: the haversine great-circle distance from any point to an identical
point is exactly zero. -/
theorem haversine_self_eq_zero (p : TrackPoint) : haversine_m p p = 0 := by
  unfold haversine_m to_radians atan2
  simp [sub_self, Real.sin_zero, Real.sqrt_zero, Real.sqrt_one, Real.arctan_zero]

/-- C7: every semantic validation failure carries a message naming the
offending field: a non-numeric `lat` or `lon` attribute yields
`"lat is not a number"` or `"lon is not a number"` respectively, a
non-numeric elevation yields `"ele is not a number"`, and a point whose
attributes leave `lat` or `lon` unset yields
`"trkpt missing lat or lon."`. -/
theorem validation_failures_name_field :
    (∀ v : String, parse_f64 v = none →
      parse_attr_f64 v "lat" = .error (.InvalidTrackPoint "lat is not a number") ∧
      parse_attr_f64 v "lon" = .error (.InvalidTrackPoint "lon is not a number")) ∧
    (∀ (pt : TrackPoint) (s : String), parse_f64 s = none →
      apply_ele pt s = .error (.InvalidTrackPoint "ele is not a number")) ∧
    (∀ (attrs : List (String × String)) (la lo : Option ℚ),
      scanAttrs attrs none none = .ok (la, lo) → (la = none ∨ lo = none) →
      parse_trkpt attrs = .error (.InvalidTrackPoint "trkpt missing lat or lon.")) := by
  refine ⟨fun v hv => ⟨?_, ?_⟩, fun pt s hs => ?_, fun attrs la lo hscan hmiss => ?_⟩
  · simp [parse_attr_f64, hv]
  · simp [parse_attr_f64, hv]
  · simp [apply_ele, hs]
  · unfold parse_trkpt
    rw [hscan]
    rcases hmiss with h | h
    · subst h
      rfl
    · subst h
      cases la <;> rfl

/-- Witness for C7 at concrete failing inputs. -/
theorem validation_failures_name_field_witness :
    parse_attr_f64 "abc" "lon" = .error (.InvalidTrackPoint "lon is not a number") ∧
    apply_ele ⟨0, 0, none, none⟩ "x" = .error (.InvalidTrackPoint "ele is not a number") ∧
    parse_trkpt [("lon", "2")] = .error (.InvalidTrackPoint "trkpt missing lat or lon.") :=
  ⟨(validation_failures_name_field.1 "abc" (by with_unfolding_all decide)).2,
   validation_failures_name_field.2.1 _ "x" (by with_unfolding_all decide),
   validation_failures_name_field.2.2 [("lon", "2")] none (some 2)
     (by with_unfolding_all decide) (Or.inl rfl)⟩

theorem except_bind_okk {ε α β : Type} (a : α) (f : α → Except ε β) :
    (Except.ok a >>= f) = f a := rfl

theorem except_bind_errr {ε α β : Type} (e : ε) (f : α → Except ε β) :
    ((Except.error e : Except ε α) >>= f) = Except.error e := rfl

theorem trackStep_segments {st st' : TrackState} {e : Event}
    (hstep : trackStep st e = .ok st') :
    st'.segments = st.segments ∨
    (st'.segments = st.segments ++ [Segment.new st.current_points] ∧
      st.current_points ≠ []) := by
  cases e with
  | start n a =>
      by_cases h1 : n = "trkseg"
      · simp only [trackStep, h1, if_pos] at hstep
        injection hstep with h
        left; rw [← h]
      · by_cases h2 : n = "trkpt"
        · simp only [trackStep, h1, h2, if_neg, if_pos, if_true, if_false] at hstep
          cases hp : parse_trkpt a with
          | error e0 =>
              rw [hp, except_bind_errr] at hstep
              simp at hstep
          | ok pt =>
              rw [hp, except_bind_okk] at hstep
              injection hstep with h
              left; rw [← h]
        · simp only [trackStep, if_neg h1, if_neg h2] at hstep
          injection hstep with h
          subst h
          by_cases h3 : st.current_point.isSome <;> simp [h3]
  | stop n =>
      by_cases h1 : n = "trkseg"
      · simp only [trackStep, h1, if_pos] at hstep
        injection hstep with h
        subst h
        by_cases h3 : st.current_points = []
        · simp [h3]
        · right
          simp [h3]
      · by_cases h2 : n = "trkpt"
        · simp only [trackStep, h1, h2, if_neg, if_pos, if_true, if_false] at hstep
          injection hstep with h
          subst h
          cases st.current_point <;> simp
        · simp only [trackStep, if_neg h1, if_neg h2] at hstep
          injection hstep with h
          left; rw [← h]
  | text s =>
      cases hc : st.current_point with
      | none =>
          simp only [trackStep, hc] at hstep
          injection hstep with h
          left; rw [← h]
      | some pt =>
          cases hh : st.current_handler with
          | none =>
              simp only [trackStep, hc, hh] at hstep
              injection hstep with h
              left; rw [← h]
          | some f =>
              simp only [trackStep, hc, hh] at hstep
              cases hap : f pt s with
              | error e0 =>
                  rw [hap, except_bind_errr] at hstep
                  simp at hstep
              | ok pt' =>
                  rw [hap, except_bind_okk] at hstep
                  injection hstep with h
                  left; rw [← h]
  | skip =>
      simp only [trackStep] at hstep
      injection hstep with h
      left; rw [← h]

theorem trackRun_segments_nonempty : ∀ (evs : List Event) (st st' : TrackState),
    (∀ s ∈ st.segments, s.points ≠ []) → trackRun st evs = .ok st' →
    ∀ s ∈ st'.segments, s.points ≠ [] := by
  intro evs
  induction evs with
  | nil =>
      intro st st' hinv hrun
      unfold trackRun at hrun
      injection hrun with h
      rw [← h]; exact hinv
  | cons e rest ih =>
      intro st st' hinv hrun
      unfold trackRun at hrun
      cases hstep : trackStep st e with
      | error e0 =>
          rw [hstep, except_bind_errr] at hrun
          simp at hrun
      | ok st1 =>
          rw [hstep, except_bind_okk] at hrun
          refine ih st1 st' ?_ hrun
          rcases trackStep_segments hstep with h | ⟨h, hne⟩
          · rw [h]; exact hinv
          · rw [h]
            intro s hs
            rcases List.mem_append.mp hs with hs | hs
            · exact hinv s hs
            · rw [List.mem_singleton.mp hs]
              exact hne

/-- C3: every segment of a track returned by `parse_track` contains at
least one point; in particular a segment opened and immediately closed
contributes no segment. -/
theorem parse_track_segments_nonempty (evs : List Event) (t : Track)
    (h : parse_track evs = .ok t) : ∀ s ∈ t.segments, s.points ≠ [] := by
  unfold parse_track at h
  cases hrun : trackRun ⟨[], [], none, none⟩ evs with
  | error e0 => rw [hrun] at h; exact absurd h (by simp)
  | ok st =>
      rw [hrun] at h
      injection h with h
      rw [← h]
      exact trackRun_segments_nonempty evs _ st (by simp) hrun

/-- Witness for C3: the document `evsEmptyAndOne` contains an empty
segment pair and a one-point segment; the parsed track has only the
one-point segment, and it is nonempty. -/
theorem parse_track_segments_nonempty_witness :
    (Segment.new [⟨1, 2, none, none⟩]).points ≠ [] :=
  parse_track_segments_nonempty evsEmptyAndOne trackOnePoint
    (by with_unfolding_all decide) (Segment.new [⟨1, 2, none, none⟩])
    (by with_unfolding_all decide)

theorem find_handler_good (n : String) : goodHandler (find_handler n) := by
  unfold goodHandler find_handler HANDLERS
  cases h1 : (("time" : String) == n) <;> cases h2 : (("ele" : String) == n) <;>
    simp [List.find?, h1, h2]

theorem parse_attr_f64_err {v nm : String} {err : InternalError}
    (h : parse_attr_f64 v nm = .error err) : ∃ m, err = .InvalidTrackPoint m := by
  unfold parse_attr_f64 at h
  cases hp : parse_f64 v <;> rw [hp] at h
  · injection h with h
    exact ⟨_, h.symm⟩
  · simp at h

theorem scanAttrs_err : ∀ (attrs : List (String × String)) (lat lon : Option ℚ)
    (err : InternalError), scanAttrs attrs lat lon = .error err →
    ∃ m, err = .InvalidTrackPoint m := by
  intro attrs
  induction attrs with
  | nil =>
      intro lat lon err h
      simp [scanAttrs] at h
  | cons kv rest ih =>
      intro lat lon err h
      rcases kv with ⟨k, v⟩
      unfold scanAttrs at h
      by_cases h1 : k = "lat"
      · simp only [h1, if_pos] at h
        cases hp : parse_attr_f64 v "lat" with
        | error e0 =>
            rw [hp, except_bind_errr] at h
            injection h with h
            exact h ▸ parse_attr_f64_err hp
        | ok q =>
            rw [hp, except_bind_okk] at h
            exact ih _ _ _ h
      · by_cases h2 : k = "lon"
        · simp only [h1, h2, if_neg, if_pos, if_true, if_false] at h
          cases hp : parse_attr_f64 v "lon" with
          | error e0 =>
              rw [hp, except_bind_errr] at h
              injection h with h
              exact h ▸ parse_attr_f64_err hp
          | ok q =>
              rw [hp, except_bind_okk] at h
              exact ih _ _ _ h
        · simp only [if_neg h1, if_neg h2] at h
          exact ih _ _ _ h

theorem parse_trkpt_err {attrs : List (String × String)} {err : InternalError}
    (h : parse_trkpt attrs = .error err) : ∃ m, err = .InvalidTrackPoint m := by
  unfold parse_trkpt at h
  cases hs : scanAttrs attrs none none with
  | error e0 =>
      rw [hs, except_bind_errr] at h
      injection h with h
      exact h ▸ scanAttrs_err attrs none none e0 hs
  | ok r =>
      rw [hs, except_bind_okk] at h
      rcases r with ⟨la, lo⟩
      cases la <;> cases lo <;> simp at h <;> exact ⟨_, h.symm⟩

theorem handler_err {f : Applyfn} (hf : goodHandler (some f)) {pt : TrackPoint}
    {s : String} {err : InternalError} (h : f pt s = .error err) :
    ∃ m, err = .InvalidTrackPoint m := by
  rcases hf with hf | hf | hf
  · simp at hf
  · injection hf with hf
    rw [hf] at h
    simp [apply_time] at h
  · injection hf with hf
    rw [hf] at h
    unfold apply_ele at h
    cases hp : parse_f64 s <;> rw [hp] at h
    · injection h with h
      exact ⟨_, h.symm⟩
    · simp at h

theorem trackStep_good {st st' : TrackState} {e : Event}
    (hg : goodHandler st.current_handler) (hstep : trackStep st e = .ok st') :
    goodHandler st'.current_handler := by
  cases e with
  | start n a =>
      by_cases h1 : n = "trkseg"
      · simp only [trackStep, h1, if_pos] at hstep
        injection hstep with h
        rw [← h]; exact hg
      · by_cases h2 : n = "trkpt"
        · simp only [trackStep, h1, h2, if_neg, if_pos, if_true, if_false] at hstep
          cases hp : parse_trkpt a with
          | error e0 => rw [hp, except_bind_errr] at hstep; simp at hstep
          | ok pt =>
              rw [hp, except_bind_okk] at hstep
              injection hstep with h
              rw [← h]; left; rfl
        · simp only [trackStep, if_neg h1, if_neg h2] at hstep
          injection hstep with h
          subst h
          by_cases h3 : st.current_point.isSome
          · simp only [h3, if_pos]
            exact find_handler_good n
          · simp only [h3, if_neg, if_false, Bool.false_eq_true, not_false_eq_true]
            exact hg
  | stop n =>
      by_cases h1 : n = "trkseg"
      · simp only [trackStep, h1, if_pos] at hstep
        injection hstep with h
        subst h
        by_cases h3 : st.current_points = [] <;> simp [h3] <;> exact hg
      · by_cases h2 : n = "trkpt"
        · simp only [trackStep, h1, h2, if_neg, if_pos, if_true, if_false] at hstep
          injection hstep with h
          subst h
          cases st.current_point <;> simp <;> left <;> rfl
        · simp only [trackStep, if_neg h1, if_neg h2] at hstep
          injection hstep with h
          rw [← h]; left; rfl
  | text s =>
      cases hc : st.current_point with
      | none =>
          simp only [trackStep, hc] at hstep
          injection hstep with h
          rw [← h]; exact hg
      | some pt =>
          cases hh : st.current_handler with
          | none =>
              simp only [trackStep, hc, hh] at hstep
              injection hstep with h
              rw [← h]; exact hg
          | some f =>
              simp only [trackStep, hc, hh] at hstep
              cases hap : f pt s with
              | error e0 => rw [hap, except_bind_errr] at hstep; simp at hstep
              | ok pt' =>
                  rw [hap, except_bind_okk] at hstep
                  injection hstep with h
                  rw [← h]
                  rw [hh] at hg
                  exact hg
  | skip =>
      simp only [trackStep] at hstep
      injection hstep with h
      rw [← h]; exact hg

theorem trackStep_err {st : TrackState} {e : Event} {err : InternalError}
    (hg : goodHandler st.current_handler) (hstep : trackStep st e = .error err) :
    ∃ m, err = .InvalidTrackPoint m := by
  cases e with
  | start n a =>
      by_cases h1 : n = "trkseg"
      · simp only [trackStep, h1, if_pos] at hstep
        simp at hstep
      · by_cases h2 : n = "trkpt"
        · simp only [trackStep, h1, h2, if_neg, if_pos, if_true, if_false] at hstep
          cases hp : parse_trkpt a with
          | error e0 =>
              rw [hp, except_bind_errr] at hstep
              injection hstep with h
              exact h ▸ parse_trkpt_err hp
          | ok pt => rw [hp, except_bind_okk] at hstep; simp at hstep
        · simp only [trackStep, if_neg h1, if_neg h2] at hstep
          simp at hstep
  | stop n =>
      by_cases h1 : n = "trkseg"
      · simp only [trackStep, h1, if_pos] at hstep; simp at hstep
      · by_cases h2 : n = "trkpt"
        · simp only [trackStep, h1, h2, if_neg, if_pos, if_true, if_false] at hstep
          simp at hstep
        · simp only [trackStep, if_neg h1, if_neg h2] at hstep; simp at hstep
  | text s =>
      cases hc : st.current_point with
      | none => simp only [trackStep, hc] at hstep; simp at hstep
      | some pt =>
          cases hh : st.current_handler with
          | none => simp only [trackStep, hc, hh] at hstep; simp at hstep
          | some f =>
              simp only [trackStep, hc, hh] at hstep
              cases hap : f pt s with
              | error e0 =>
                  rw [hap, except_bind_errr] at hstep
                  injection hstep with h
                  refine h ▸ handler_err ?_ hap
                  rw [← hh]; exact hg
              | ok pt' => rw [hap, except_bind_okk] at hstep; simp at hstep
  | skip => simp only [trackStep] at hstep; simp at hstep

theorem trackRun_err : ∀ (evs : List Event) (st : TrackState) (err : InternalError),
    goodHandler st.current_handler → trackRun st evs = .error err →
    ∃ m, err = .InvalidTrackPoint m := by
  intro evs
  induction evs with
  | nil => intro st err hg h; simp [trackRun] at h
  | cons e rest ih =>
      intro st err hg h
      unfold trackRun at h
      cases hstep : trackStep st e with
      | error e0 =>
          rw [hstep, except_bind_errr] at h
          injection h with h
          exact h ▸ trackStep_err hg hstep
      | ok st1 =>
          rw [hstep, except_bind_okk] at h
          exact ih st1 err (trackStep_good hg hstep) h

theorem trackRun_bad_trkpt : ∀ (evs : List Event) (st : TrackState)
    (attrs : List (String × String)), Event.start "trkpt" attrs ∈ evs →
    (∃ e0, parse_trkpt attrs = .error e0) →
    ∃ err, trackRun st evs = .error err := by
  intro evs
  induction evs with
  | nil => intro st attrs hmem _; simp at hmem
  | cons e rest ih =>
      intro st attrs hmem hbad
      rcases List.mem_cons.mp hmem with heq | hmem'
      · subst heq
        rcases hbad with ⟨e0, he0⟩
        unfold trackRun
        have hstep : trackStep st (Event.start "trkpt" attrs) = .error e0 := by
          simp [trackStep, he0, except_bind_errr]
        rw [hstep, except_bind_errr]
        exact ⟨e0, rfl⟩
      · unfold trackRun
        cases hstep : trackStep st e with
        | error e0 => rw [except_bind_errr]; exact ⟨e0, rfl⟩
        | ok st1 =>
            rw [except_bind_okk]
            exact ih st1 attrs hmem' hbad

theorem scanAttrs_no_lat : ∀ (attrs : List (String × String)) (lat lon la lo : Option ℚ),
    scanAttrs attrs lat lon = .ok (la, lo) → (∀ v, ("lat", v) ∉ attrs) → la = lat := by
  intro attrs
  induction attrs with
  | nil =>
      intro lat lon la lo h _
      simp [scanAttrs] at h
      exact h.1.symm
  | cons kv rest ih =>
      intro lat lon la lo h hno
      rcases kv with ⟨k, v⟩
      have hk : ¬k = "lat" := by
        intro hk
        exact hno v (by rw [hk]; exact List.mem_cons_self _ _)
      unfold scanAttrs at h
      rw [if_neg hk] at h
      have hno' : ∀ w, ("lat", w) ∉ rest := fun w hw => hno w (List.mem_cons_of_mem _ hw)
      by_cases h2 : k = "lon"
      · rw [if_pos h2] at h
        cases hp : parse_attr_f64 v "lon" with
        | error e0 => rw [hp, except_bind_errr] at h; simp at h
        | ok q =>
            rw [hp, except_bind_okk] at h
            exact ih _ _ _ _ h hno'
      · rw [if_neg h2] at h
        exact ih _ _ _ _ h hno'

theorem scanAttrs_no_lon : ∀ (attrs : List (String × String)) (lat lon la lo : Option ℚ),
    scanAttrs attrs lat lon = .ok (la, lo) → (∀ v, ("lon", v) ∉ attrs) → lo = lon := by
  intro attrs
  induction attrs with
  | nil =>
      intro lat lon la lo h _
      simp [scanAttrs] at h
      exact h.2.symm
  | cons kv rest ih =>
      intro lat lon la lo h hno
      rcases kv with ⟨k, v⟩
      have hk : ¬k = "lon" := by
        intro hk
        exact hno v (by rw [hk]; exact List.mem_cons_self _ _)
      have hno' : ∀ w, ("lon", w) ∉ rest := fun w hw => hno w (List.mem_cons_of_mem _ hw)
      unfold scanAttrs at h
      by_cases h1 : k = "lat"
      · rw [if_pos h1] at h
        cases hp : parse_attr_f64 v "lat" with
        | error e0 => rw [hp, except_bind_errr] at h; simp at h
        | ok q =>
            rw [hp, except_bind_okk] at h
            exact ih _ _ _ _ h hno'
      · rw [if_neg h1, if_neg hk] at h
        exact ih _ _ _ _ h hno'

theorem scanAttrs_bad_val : ∀ (attrs : List (String × String)) (lat lon : Option ℚ)
    (v : String), (("lat", v) ∈ attrs ∨ ("lon", v) ∈ attrs) → parse_f64 v = none →
    ∃ e, scanAttrs attrs lat lon = .error e := by
  intro attrs
  induction attrs with
  | nil =>
      intro lat lon v hmem _
      rcases hmem with hmem | hmem <;> simp at hmem
  | cons kv rest ih =>
      intro lat lon v hmem hv
      rcases kv with ⟨k, w⟩
      unfold scanAttrs
      by_cases h1 : k = "lat"
      · rw [if_pos h1]
        cases hp : parse_attr_f64 w "lat" with
        | error e0 => rw [except_bind_errr]; exact ⟨e0, rfl⟩
        | ok q =>
            rw [except_bind_okk]
            refine ih _ _ v ?_ hv
            rcases hmem with hmem | hmem
            · rcases List.mem_cons.mp hmem with heq | hmem'
              · exfalso
                have hw : w = v := congrArg Prod.snd heq.symm
                rw [hw] at hp
                unfold parse_attr_f64 at hp
                rw [hv] at hp
                simp at hp
              · exact Or.inl hmem'
            · rcases List.mem_cons.mp hmem with heq | hmem'
              · exfalso
                have : ("lon" : String) = k := congrArg Prod.fst heq
                rw [h1] at this
                simp at this
              · exact Or.inr hmem'
      · by_cases h2 : k = "lon"
        · rw [if_neg h1, if_pos h2]
          cases hp : parse_attr_f64 w "lon" with
          | error e0 => rw [except_bind_errr]; exact ⟨e0, rfl⟩
          | ok q =>
              rw [except_bind_okk]
              refine ih _ _ v ?_ hv
              rcases hmem with hmem | hmem
              · rcases List.mem_cons.mp hmem with heq | hmem'
                · exfalso
                  have : ("lat" : String) = k := congrArg Prod.fst heq
                  rw [h2] at this
                  simp at this
                · exact Or.inl hmem'
              · rcases List.mem_cons.mp hmem with heq | hmem'
                · exfalso
                  have hw : w = v := congrArg Prod.snd heq.symm
                  rw [hw] at hp
                  unfold parse_attr_f64 at hp
                  rw [hv] at hp
                  simp at hp
                · exact Or.inr hmem'
        · rw [if_neg h1, if_neg h2]
          refine ih _ _ v ?_ hv
          rcases hmem with hmem | hmem
          · rcases List.mem_cons.mp hmem with heq | hmem'
            · exact absurd (congrArg Prod.fst heq : ("lat" : String) = k).symm h1
            · exact Or.inl hmem'
          · rcases List.mem_cons.mp hmem with heq | hmem'
            · exact absurd (congrArg Prod.fst heq : ("lon" : String) = k).symm h2
            · exact Or.inr hmem'

theorem bad_attrs_parse_trkpt_err (attrs : List (String × String))
    (hbad : (∀ v, ("lat", v) ∉ attrs) ∨ (∀ v, ("lon", v) ∉ attrs) ∨
      (∃ v, (("lat", v) ∈ attrs ∨ ("lon", v) ∈ attrs) ∧ parse_f64 v = none)) :
    ∃ e0, parse_trkpt attrs = .error e0 := by
  rcases hbad with hno | hno | ⟨v, hmem, hv⟩
  · cases hs : scanAttrs attrs none none with
    | error e0 =>
        refine ⟨e0, ?_⟩
        unfold parse_trkpt
        rw [hs, except_bind_errr]
    | ok r =>
        rcases r with ⟨la, lo⟩
        have : la = none := scanAttrs_no_lat attrs none none la lo hs hno
        subst this
        refine ⟨.InvalidTrackPoint "trkpt missing lat or lon.", ?_⟩
        unfold parse_trkpt
        rw [hs, except_bind_okk]
  · cases hs : scanAttrs attrs none none with
    | error e0 =>
        refine ⟨e0, ?_⟩
        unfold parse_trkpt
        rw [hs, except_bind_errr]
    | ok r =>
        rcases r with ⟨la, lo⟩
        have : lo = none := scanAttrs_no_lon attrs none none la lo hs hno
        subst this
        refine ⟨.InvalidTrackPoint "trkpt missing lat or lon.", ?_⟩
        unfold parse_trkpt
        rw [hs, except_bind_okk]
        cases la <;> rfl
  · rcases scanAttrs_bad_val attrs none none v hmem hv with ⟨e0, hs⟩
    refine ⟨e0, ?_⟩
    unfold parse_trkpt
    rw [hs, except_bind_errr]

theorem pointsStep_good {st st' : PointsState} {e : Event}
    (hg : goodHandler st.current_handler) (hstep : pointsStep st e = .ok st') :
    goodHandler st'.current_handler := by
  cases e with
  | start n a =>
      by_cases h1 : n = "trkpt"
      · simp only [pointsStep, h1, if_pos] at hstep
        cases hp : parse_trkpt a with
        | error e0 => rw [hp, except_bind_errr] at hstep; simp at hstep
        | ok pt =>
            rw [hp, except_bind_okk] at hstep
            injection hstep with h
            rw [← h]; left; rfl
      · simp only [pointsStep, if_neg h1] at hstep
        injection hstep with h
        rw [← h]
        by_cases h3 : st.current.isSome
        · simp only [h3, if_pos]
          exact find_handler_good n
        · simp only [h3, if_neg, if_false, Bool.false_eq_true, not_false_eq_true]
          left; rfl
  | stop n =>
      by_cases h1 : n = "trkpt"
      · simp only [pointsStep, h1, if_pos] at hstep
        injection hstep with h
        subst h
        cases st.current <;> simp <;> exact hg
      · simp only [pointsStep, if_neg h1] at hstep
        injection hstep with h
        rw [← h]; left; rfl
  | text s =>
      cases hc : st.current with
      | none =>
          simp only [pointsStep, hc] at hstep
          injection hstep with h
          rw [← h]; exact hg
      | some pt =>
          cases hh : st.current_handler with
          | none =>
              simp only [pointsStep, hc, hh] at hstep
              injection hstep with h
              rw [← h]; exact hg
          | some f =>
              simp only [pointsStep, hc, hh] at hstep
              cases hap : f pt s with
              | error e0 => rw [hap, except_bind_errr] at hstep; simp at hstep
              | ok pt' =>
                  rw [hap, except_bind_okk] at hstep
                  injection hstep with h
                  rw [← h]
                  rw [hh] at hg
                  exact hg
  | skip =>
      simp only [pointsStep] at hstep
      injection hstep with h
      rw [← h]; exact hg

theorem pointsStep_err {st : PointsState} {e : Event} {err : InternalError}
    (hg : goodHandler st.current_handler) (hstep : pointsStep st e = .error err) :
    ∃ m, err = .InvalidTrackPoint m := by
  cases e with
  | start n a =>
      by_cases h1 : n = "trkpt"
      · simp only [pointsStep, h1, if_pos] at hstep
        cases hp : parse_trkpt a with
        | error e0 =>
            rw [hp, except_bind_errr] at hstep
            injection hstep with h
            exact h ▸ parse_trkpt_err hp
        | ok pt => rw [hp, except_bind_okk] at hstep; simp at hstep
      · simp only [pointsStep, if_neg h1] at hstep; simp at hstep
  | stop n =>
      by_cases h1 : n = "trkpt"
      · simp only [pointsStep, h1, if_pos] at hstep; simp at hstep
      · simp only [pointsStep, if_neg h1] at hstep; simp at hstep
  | text s =>
      cases hc : st.current with
      | none => simp only [pointsStep, hc] at hstep; simp at hstep
      | some pt =>
          cases hh : st.current_handler with
          | none => simp only [pointsStep, hc, hh] at hstep; simp at hstep
          | some f =>
              simp only [pointsStep, hc, hh] at hstep
              cases hap : f pt s with
              | error e0 =>
                  rw [hap, except_bind_errr] at hstep
                  injection hstep with h
                  refine h ▸ handler_err ?_ hap
                  rw [← hh]; exact hg
              | ok pt' => rw [hap, except_bind_okk] at hstep; simp at hstep
  | skip => simp only [pointsStep] at hstep; simp at hstep

theorem pointsRun_err : ∀ (evs : List Event) (st : PointsState) (err : InternalError),
    goodHandler st.current_handler → pointsRun st evs = .error err →
    ∃ m, err = .InvalidTrackPoint m := by
  intro evs
  induction evs with
  | nil => intro st err hg h; simp [pointsRun] at h
  | cons e rest ih =>
      intro st err hg h
      unfold pointsRun at h
      cases hstep : pointsStep st e with
      | error e0 =>
          rw [hstep, except_bind_errr] at h
          injection h with h
          exact h ▸ pointsStep_err hg hstep
      | ok st1 =>
          rw [hstep, except_bind_okk] at h
          exact ih st1 err (pointsStep_good hg hstep) h

theorem pointsRun_bad_trkpt : ∀ (evs : List Event) (st : PointsState)
    (attrs : List (String × String)), Event.start "trkpt" attrs ∈ evs →
    (∃ e0, parse_trkpt attrs = .error e0) →
    ∃ err, pointsRun st evs = .error err := by
  intro evs
  induction evs with
  | nil => intro st attrs hmem _; simp at hmem
  | cons e rest ih =>
      intro st attrs hmem hbad
      rcases List.mem_cons.mp hmem with heq | hmem'
      · subst heq
        rcases hbad with ⟨e0, he0⟩
        unfold pointsRun
        have hstep : pointsStep st (Event.start "trkpt" attrs) = .error e0 := by
          simp [pointsStep, he0, except_bind_errr]
        rw [hstep, except_bind_errr]
        exact ⟨e0, rfl⟩
      · unfold pointsRun
        cases hstep : pointsStep st e with
        | error e0 => rw [except_bind_errr]; exact ⟨e0, rfl⟩
        | ok st1 =>
            rw [except_bind_okk]
            exact ih st1 attrs hmem' hbad

/-- C2: a track-point start tag whose attributes leave `lat` or `lon`
unset, or carry a non-numeric `lat`/`lon` value, makes both entry points
abort with the public data-failure error `Error::InvalidData`; no track is
produced, so no point with a defaulted coordinate ever is. -/
theorem bad_trkpt_aborts_both_parsers (evs : List Event)
    (attrs : List (String × String))
    (hmem : Event.start "trkpt" attrs ∈ evs)
    (hbad : (∀ v, ("lat", v) ∉ attrs) ∨ (∀ v, ("lon", v) ∉ attrs) ∨
      (∃ v, (("lat", v) ∈ attrs ∨ ("lon", v) ∈ attrs) ∧ parse_f64 v = none)) :
    parse_track evs = .error .InvalidData ∧
    parse_track_points evs = .error .InvalidData := by
  have hbad' := bad_attrs_parse_trkpt_err attrs hbad
  constructor
  · rcases trackRun_bad_trkpt evs ⟨[], [], none, none⟩ attrs hmem hbad' with ⟨err, herr⟩
    rcases trackRun_err evs _ err (Or.inl rfl) herr with ⟨m, rfl⟩
    unfold parse_track
    rw [herr]
    rfl
  · rcases pointsRun_bad_trkpt evs ⟨[], none, none⟩ attrs hmem hbad' with ⟨err, herr⟩
    rcases pointsRun_err evs _ err (Or.inl rfl) herr with ⟨m, rfl⟩
    unfold parse_track_points
    rw [herr]
    rfl

/-- Witness for C2 at a document whose single track-point start tag has no
attributes at all (hence no `lat`). -/
theorem bad_trkpt_aborts_both_parsers_witness :
    parse_track [Event.start "trkpt" []] = .error .InvalidData ∧
    parse_track_points [Event.start "trkpt" []] = .error .InvalidData :=
  bad_trkpt_aborts_both_parsers [Event.start "trkpt" []] []
    (List.mem_singleton.mpr rfl) (Or.inl (fun v h => by simp at h))

theorem except_bind_pure {ε α : Type} (x : Except ε α) :
    (x >>= fun a => Except.ok a) = x := by cases x <;> rfl

theorem trackRun_nil (st : TrackState) : trackRun st [] = .ok st := rfl

theorem trackRun_cons (st : TrackState) (e : Event) (rest : List Event) :
    trackRun st (e :: rest) = trackStep st e >>= fun st1 => trackRun st1 rest := rfl

theorem pointsRun_nil (st : PointsState) : pointsRun st [] = .ok st := rfl

theorem pointsRun_cons (st : PointsState) (e : Event) (rest : List Event) :
    pointsRun st (e :: rest) = pointsStep st e >>= fun st1 => pointsRun st1 rest := rfl

theorem trackStep_start_seg (st : TrackState) (a : List (String × String)) :
    trackStep st (.start "trkseg" a) = .ok { st with current_points := [] } := by
  simp [trackStep]

theorem trackStep_start_pt (st : TrackState) {a : List (String × String)}
    {pt : TrackPoint} (h : parse_trkpt a = .ok pt) :
    trackStep st (.start "trkpt" a) =
      .ok { st with current_point := some pt, current_handler := none } := by
  simp [trackStep, h, except_bind_okk]

theorem trackStep_start_pt_err (st : TrackState) {a : List (String × String)}
    {e0 : InternalError} (h : parse_trkpt a = .error e0) :
    trackStep st (.start "trkpt" a) = .error e0 := by
  simp [trackStep, h, except_bind_errr]

theorem trackStep_start_other (st : TrackState) {n : String}
    (a : List (String × String)) (h1 : n ≠ "trkseg") (h2 : n ≠ "trkpt") :
    trackStep st (.start n a) =
      .ok (if st.current_point.isSome then
            { st with current_handler := find_handler n } else st) := by
  simp [trackStep, h1, h2]

theorem trackStep_stop_seg (st : TrackState) :
    trackStep st (.stop "trkseg") =
      .ok (if st.current_points ≠ [] then
            { st with segments := st.segments ++ [Segment.new st.current_points],
                      current_points := [] }
          else st) := by
  simp [trackStep]

theorem trackStep_stop_pt (st : TrackState) :
    trackStep st (.stop "trkpt") =
      .ok (match st.current_point with
           | some pt => { st with current_points := st.current_points ++ [pt],
                                  current_point := none, current_handler := none }
           | none => { st with current_point := none, current_handler := none }) := by
  simp [trackStep]

theorem trackStep_stop_other (st : TrackState) {n : String} (h1 : n ≠ "trkseg")
    (h2 : n ≠ "trkpt") :
    trackStep st (.stop n) = .ok { st with current_handler := none } := by
  simp [trackStep, h1, h2]

theorem trackStep_text_closed (st : TrackState) (s : String)
    (h : st.current_point = none) : trackStep st (.text s) = .ok st := by
  simp [trackStep, h]

theorem trackStep_text_unbound (st : TrackState) (s : String)
    (h : st.current_handler = none) : trackStep st (.text s) = .ok st := by
  simp only [trackStep, h]
  cases st.current_point <;> rfl

theorem trackStep_text_apply (st : TrackState) (s : String) {pt : TrackPoint}
    {f : Applyfn} (hc : st.current_point = some pt)
    (hh : st.current_handler = some f) :
    trackStep st (.text s) =
      f pt s >>= fun pt' => .ok { st with current_point := some pt' } := by
  simp only [trackStep, hc, hh]

theorem trackStep_skip (st : TrackState) : trackStep st .skip = .ok st := rfl

theorem pointsStep_start_pt (st : PointsState) {a : List (String × String)}
    {pt : TrackPoint} (h : parse_trkpt a = .ok pt) :
    pointsStep st (.start "trkpt" a) =
      .ok { st with current := some pt, current_handler := none } := by
  simp [pointsStep, h, except_bind_okk]

theorem pointsStep_start_pt_err (st : PointsState) {a : List (String × String)}
    {e0 : InternalError} (h : parse_trkpt a = .error e0) :
    pointsStep st (.start "trkpt" a) = .error e0 := by
  simp [pointsStep, h, except_bind_errr]

theorem pointsStep_start_other (st : PointsState) {n : String}
    (a : List (String × String)) (h1 : n ≠ "trkpt") :
    pointsStep st (.start n a) =
      .ok { st with current_handler :=
              if st.current.isSome then find_handler n else none } := by
  simp [pointsStep, h1]

theorem pointsStep_stop_pt (st : PointsState) :
    pointsStep st (.stop "trkpt") =
      .ok (match st.current with
           | some pt => { st with points := st.points ++ [pt], current := none }
           | none => { st with current := none }) := by
  simp [pointsStep]

theorem pointsStep_stop_other (st : PointsState) {n : String} (h1 : n ≠ "trkpt") :
    pointsStep st (.stop n) = .ok { st with current_handler := none } := by
  simp [pointsStep, h1]

theorem pointsStep_text_closed (st : PointsState) (s : String)
    (h : st.current = none) : pointsStep st (.text s) = .ok st := by
  simp [pointsStep, h]

theorem pointsStep_text_unbound (st : PointsState) (s : String)
    (h : st.current_handler = none) : pointsStep st (.text s) = .ok st := by
  simp only [pointsStep, h]
  cases st.current <;> rfl

theorem pointsStep_text_apply (st : PointsState) (s : String) {pt : TrackPoint}
    {f : Applyfn} (hc : st.current = some pt)
    (hh : st.current_handler = some f) :
    pointsStep st (.text s) =
      f pt s >>= fun pt' => .ok { st with current := some pt' } := by
  simp only [pointsStep, hc, hh]

theorem pointsStep_skip (st : PointsState) : pointsStep st .skip = .ok st := rfl

theorem trackRun_append : ∀ (evs1 evs2 : List Event) (st : TrackState),
    trackRun st (evs1 ++ evs2) = trackRun st evs1 >>= fun st' => trackRun st' evs2 := by
  intro evs1
  induction evs1 with
  | nil => intro evs2 st; rfl
  | cons e rest ih =>
      intro evs2 st
      rw [List.cons_append, trackRun_cons, trackRun_cons]
      cases hstep : trackStep st e with
      | error e0 => rw [except_bind_errr, except_bind_errr, except_bind_errr]
      | ok st1 => rw [except_bind_okk, except_bind_okk, ih]

theorem pointsRun_append : ∀ (evs1 evs2 : List Event) (st : PointsState),
    pointsRun st (evs1 ++ evs2) = pointsRun st evs1 >>= fun st' => pointsRun st' evs2 := by
  intro evs1
  induction evs1 with
  | nil => intro evs2 st; rfl
  | cons e rest ih =>
      intro evs2 st
      rw [List.cons_append, pointsRun_cons, pointsRun_cons]
      cases hstep : pointsStep st e with
      | error e0 => rw [except_bind_errr, except_bind_errr, except_bind_errr]
      | ok st1 => rw [except_bind_okk, except_bind_okk, ih]

theorem trackRun_single (st : TrackState) (e : Event) :
    trackRun st [e] = trackStep st e := by
  rw [trackRun_cons]
  simp only [trackRun_nil]
  rw [except_bind_pure]

theorem pointsRun_single (st : PointsState) (e : Event) :
    pointsRun st [e] = pointsStep st e := by
  rw [pointsRun_cons]
  simp only [pointsRun_nil]
  rw [except_bind_pure]

mutual
theorem trackWalkN_eq : ∀ (st : TrackState) (nd : Node),
    trackWalkN st nd = trackRun st (flattenNode nd)
  | st, .elem n a cs => by
      unfold trackWalkN
      show _ = trackRun st (.start n a :: (flattenForest cs ++ [.stop n]))
      rw [trackRun_cons]
      cases hstep : trackStep st (.start n a) with
      | error e0 => rw [except_bind_errr, except_bind_errr]
      | ok st1 =>
          rw [except_bind_okk, except_bind_okk, trackRun_append,
            ← trackWalkF_eq st1 cs]
          cases hw : trackWalkF st1 cs with
          | error e1 => rw [except_bind_errr, except_bind_errr]
          | ok st2 => rw [except_bind_okk, except_bind_okk, trackRun_single]
  | st, .txt s => by
      unfold trackWalkN
      show _ = trackRun st [.text s]
      rw [trackRun_single]
  | st, .misc => by
      unfold trackWalkN
      show _ = trackRun st [.skip]
      rw [trackRun_single]

theorem trackWalkF_eq : ∀ (st : TrackState) (f : Forest),
    trackWalkF st f = trackRun st (flattenForest f)
  | st, .nil => rfl
  | st, .cons nd f => by
      unfold trackWalkF
      show _ = trackRun st (flattenNode nd ++ flattenForest f)
      rw [trackRun_append, ← trackWalkN_eq st nd]
      cases hw : trackWalkN st nd with
      | error e0 => rw [except_bind_errr, except_bind_errr]
      | ok st1 => rw [except_bind_okk, except_bind_okk, trackWalkF_eq st1 f]
end

mutual
theorem pointsWalkN_eq : ∀ (st : PointsState) (nd : Node),
    pointsWalkN st nd = pointsRun st (flattenNode nd)
  | st, .elem n a cs => by
      unfold pointsWalkN
      show _ = pointsRun st (.start n a :: (flattenForest cs ++ [.stop n]))
      rw [pointsRun_cons]
      cases hstep : pointsStep st (.start n a) with
      | error e0 => rw [except_bind_errr, except_bind_errr]
      | ok st1 =>
          rw [except_bind_okk, except_bind_okk, pointsRun_append,
            ← pointsWalkF_eq st1 cs]
          cases hw : pointsWalkF st1 cs with
          | error e1 => rw [except_bind_errr, except_bind_errr]
          | ok st2 => rw [except_bind_okk, except_bind_okk, pointsRun_single]
  | st, .txt s => by
      unfold pointsWalkN
      show _ = pointsRun st [.text s]
      rw [pointsRun_single]
  | st, .misc => by
      unfold pointsWalkN
      show _ = pointsRun st [.skip]
      rw [pointsRun_single]

theorem pointsWalkF_eq : ∀ (st : PointsState) (f : Forest),
    pointsWalkF st f = pointsRun st (flattenForest f)
  | st, .nil => rfl
  | st, .cons nd f => by
      unfold pointsWalkF
      show _ = pointsRun st (flattenNode nd ++ flattenForest f)
      rw [pointsRun_append, ← pointsWalkN_eq st nd]
      cases hw : pointsWalkN st nd with
      | error e0 => rw [except_bind_errr, except_bind_errr]
      | ok st1 => rw [except_bind_okk, except_bind_okk, pointsWalkF_eq st1 f]
end

theorem RCore_openpt {st : TrackState} {pst : PointsState} (h : RCore st pst)
    (pt : TrackPoint) :
    RCore { st with current_point := some pt, current_handler := none }
          { pst with current := some pt, current_handler := none } := by
  obtain ⟨_, _, _, h4⟩ := h
  exact ⟨rfl, by simp, fun _ _ => rfl, h4⟩

theorem RCore_after_stop_pt_some {st : TrackState} {pst : PointsState} {p : TrackPoint}
    (h : RCore st pst) :
    RCore { st with current_points := st.current_points ++ [p],
                    current_point := none, current_handler := none }
          { pst with points := pst.points ++ [p], current := none } := by
  obtain ⟨_, _, _, h4⟩ := h
  refine ⟨rfl, fun _ => rfl, fun pt hpt => by simp at hpt, ?_⟩
  show pst.points ++ [p] = st.segments.flatMap Segment.points ++ (st.current_points ++ [p])
  rw [h4, List.append_assoc]

theorem RCore_after_stop_pt_none {st : TrackState} {pst : PointsState}
    (h : RCore st pst) :
    RCore { st with current_point := none, current_handler := none }
          { pst with current := none } := by
  obtain ⟨_, _, _, h4⟩ := h
  exact ⟨rfl, fun _ => rfl, fun pt hpt => by simp at hpt, h4⟩

theorem RCore_start_other {st : TrackState} {pst : PointsState} (hR : RCore st pst)
    (n : String) :
    RCore (if st.current_point.isSome then { st with current_handler := find_handler n }
           else st)
          { pst with current_handler := if pst.current.isSome then find_handler n
                                        else none } := by
  obtain ⟨h1, h2, h3, h4⟩ := hR
  cases hc : st.current_point with
  | none =>
      have h1' : pst.current = none := by rw [h1, hc]
      rw [h1']
      simp only [Option.isSome_none, Bool.false_eq_true, if_false]
      refine ⟨hc.symm, h2, ?_, h4⟩
      intro pt hpt
      rw [hc] at hpt
      exact absurd hpt (by simp)
  | some p =>
      have h1' : pst.current = some p := by rw [h1, hc]
      rw [h1']
      simp only [Option.isSome_some, if_true]
      refine ⟨rfl, ?_, ?_, h4⟩
      · intro hn
        simp at hn
      · intro pt _
        rfl

theorem RCore_clear_handlers {st : TrackState} {pst : PointsState} (hR : RCore st pst) :
    RCore { st with current_handler := none } { pst with current_handler := none } := by
  obtain ⟨h1, _, _, h4⟩ := hR
  exact ⟨h1, fun _ => rfl, fun _ _ => rfl, h4⟩

theorem RCore_text_apply {st : TrackState} {pst : PointsState} {p : TrackPoint}
    (hR : RCore st pst) (hc : st.current_point = some p) (p' : TrackPoint) :
    RCore { st with current_point := some p' } { pst with current := some p' } := by
  obtain ⟨_, _, h3, h4⟩ := hR
  refine ⟨rfl, ?_, ?_, h4⟩
  · intro hn
    simp at hn
  · intro pt _
    show pst.current_handler = st.current_handler
    exact h3 p hc

mutual
theorem trackWalkN_pointNone : ∀ (nd : Node) (st st' : TrackState),
    st.current_point = none → trackWalkN st nd = .ok st' → st'.current_point = none
  | .elem n a cs, st, st' => by
      intro h0 hw
      unfold trackWalkN at hw
      cases h1 : trackStep st (.start n a) with
      | error e0 => rw [h1, except_bind_errr] at hw; simp at hw
      | ok st1 =>
          rw [h1, except_bind_okk] at hw
          cases h2 : trackWalkF st1 cs with
          | error e1 => rw [h2, except_bind_errr] at hw; simp at hw
          | ok st2 =>
              rw [h2, except_bind_okk] at hw
              by_cases hpt : n = "trkpt"
              · subst hpt
                rw [trackStep_stop_pt] at hw
                injection hw with hw
                rw [← hw]
                cases st2.current_point <;> rfl
              · have h1' : st1.current_point = none := by
                  by_cases hseg : n = "trkseg"
                  · subst hseg
                    rw [trackStep_start_seg] at h1
                    injection h1 with h1
                    rw [← h1]
                    exact h0
                  · rw [trackStep_start_other st a hseg hpt] at h1
                    injection h1 with h1
                    rw [← h1]
                    simp [h0]
                have h2' : st2.current_point = none :=
                  trackWalkF_pointNone cs st1 st2 h1' h2
                by_cases hseg : n = "trkseg"
                · subst hseg
                  rw [trackStep_stop_seg] at hw
                  injection hw with hw
                  rw [← hw]
                  split_ifs <;> exact h2'
                · rw [trackStep_stop_other st2 hseg hpt] at hw
                  injection hw with hw
                  rw [← hw]
                  exact h2'
  | .txt s, st, st' => by
      intro h0 hw
      unfold trackWalkN at hw
      rw [trackStep_text_closed st s h0] at hw
      injection hw with hw
      rw [← hw]; exact h0
  | .misc, st, st' => by
      intro h0 hw
      unfold trackWalkN at hw
      rw [trackStep_skip] at hw
      injection hw with hw
      rw [← hw]; exact h0

theorem trackWalkF_pointNone : ∀ (f : Forest) (st st' : TrackState),
    st.current_point = none → trackWalkF st f = .ok st' → st'.current_point = none
  | .nil, st, st' => by
      intro h0 hw
      unfold trackWalkF at hw
      injection hw with hw
      rw [← hw]; exact h0
  | .cons nd f, st, st' => by
      intro h0 hw
      unfold trackWalkF at hw
      cases h1 : trackWalkN st nd with
      | error e0 => rw [h1, except_bind_errr] at hw; simp at hw
      | ok st1 =>
          rw [h1, except_bind_okk] at hw
          exact trackWalkF_pointNone f st1 st'
            (trackWalkN_pointNone nd st st1 h0 h1) hw
end

mutual
theorem lockstep_N : ∀ (nd : Node) (st : TrackState) (pst : PointsState),
    segFreeN nd = true → RCore st pst → LockRel (trackWalkN st nd) (pointsWalkN pst nd)
  | .elem n a cs, st, pst => by
      intro hfree hR
      have hfree' : ¬n = "trkseg" ∧ segFreeF cs = true := by
        simpa [segFreeN] using hfree
      obtain ⟨hn, hcs⟩ := hfree'
      unfold trackWalkN pointsWalkN
      by_cases hpt : n = "trkpt"
      · subst hpt
        cases hp : parse_trkpt a with
        | error e0 =>
            rw [trackStep_start_pt_err st hp, pointsStep_start_pt_err pst hp,
              except_bind_errr, except_bind_errr]
            exact Or.inl ⟨e0, rfl, rfl⟩
        | ok pt =>
            rw [trackStep_start_pt st hp, pointsStep_start_pt pst hp,
              except_bind_okk, except_bind_okk]
            rcases lockstep_F cs _ _ hcs (RCore_openpt hR pt) with
              ⟨e, he1, he2⟩ | ⟨st2, pst2, hw1, hw2, hR2⟩
            · rw [he1, he2, except_bind_errr, except_bind_errr]
              exact Or.inl ⟨e, rfl, rfl⟩
            · rw [hw1, hw2, except_bind_okk, except_bind_okk,
                trackStep_stop_pt, pointsStep_stop_pt]
              cases hcp : st2.current_point with
              | some p =>
                  have hc2 : pst2.current = some p := by rw [hR2.1, hcp]
                  rw [hc2]
                  exact Or.inr ⟨_, _, rfl, rfl, RCore_after_stop_pt_some hR2⟩
              | none =>
                  have hc2 : pst2.current = none := by rw [hR2.1, hcp]
                  rw [hc2]
                  exact Or.inr ⟨_, _, rfl, rfl, RCore_after_stop_pt_none hR2⟩
      · rw [trackStep_start_other st a hn hpt, pointsStep_start_other pst a hpt,
          except_bind_okk, except_bind_okk]
        rcases lockstep_F cs _ _ hcs (RCore_start_other hR n) with
          ⟨e, he1, he2⟩ | ⟨st2, pst2, hw1, hw2, hR2⟩
        · rw [he1, he2, except_bind_errr, except_bind_errr]
          exact Or.inl ⟨e, rfl, rfl⟩
        · rw [hw1, hw2, except_bind_okk, except_bind_okk,
            trackStep_stop_other st2 hn hpt, pointsStep_stop_other pst2 hpt]
          exact Or.inr ⟨_, _, rfl, rfl, RCore_clear_handlers hR2⟩
  | .txt s, st, pst => by
      intro _ hR
      obtain ⟨h1, h2, h3, h4⟩ := hR
      unfold trackWalkN pointsWalkN
      cases hcp : st.current_point with
      | none =>
          have hc : pst.current = none := by rw [h1, hcp]
          rw [trackStep_text_closed st s hcp, pointsStep_text_closed pst s hc]
          exact Or.inr ⟨_, _, rfl, rfl, h1, h2, h3, h4⟩
      | some p =>
          have hc : pst.current = some p := by rw [h1, hcp]
          cases hh : st.current_handler with
          | none =>
              have hh2 : pst.current_handler = none := by rw [h3 p hcp, hh]
              rw [trackStep_text_unbound st s hh, pointsStep_text_unbound pst s hh2]
              exact Or.inr ⟨_, _, rfl, rfl, h1, h2, h3, h4⟩
          | some f =>
              have hh2 : pst.current_handler = some f := by rw [h3 p hcp, hh]
              rw [trackStep_text_apply st s hcp hh,
                pointsStep_text_apply pst s hc hh2]
              cases hap : f p s with
              | error e0 =>
                  rw [except_bind_errr, except_bind_errr]
                  exact Or.inl ⟨e0, rfl, rfl⟩
              | ok p' =>
                  rw [except_bind_okk, except_bind_okk]
                  exact Or.inr ⟨_, _, rfl, rfl,
                    RCore_text_apply ⟨h1, h2, h3, h4⟩ hcp p'⟩
  | .misc, st, pst => by
      intro _ hR
      unfold trackWalkN pointsWalkN
      rw [trackStep_skip, pointsStep_skip]
      exact Or.inr ⟨_, _, rfl, rfl, hR⟩

theorem lockstep_F : ∀ (f : Forest) (st : TrackState) (pst : PointsState),
    segFreeF f = true → RCore st pst → LockRel (trackWalkF st f) (pointsWalkF pst f)
  | .nil, st, pst => by
      intro _ hR
      exact Or.inr ⟨_, _, rfl, rfl, hR⟩
  | .cons nd f, st, pst => by
      intro hfree hR
      have hfree' : segFreeN nd = true ∧ segFreeF f = true := by
        simpa [segFreeF] using hfree
      obtain ⟨hnd, hf⟩ := hfree'
      unfold trackWalkF pointsWalkF
      rcases lockstep_N nd st pst hnd hR with
        ⟨e, he1, he2⟩ | ⟨st1, pst1, hw1, hw2, hR1⟩
      · rw [he1, he2, except_bind_errr, except_bind_errr]
        exact Or.inl ⟨e, rfl, rfl⟩
      · rw [hw1, hw2, except_bind_okk, except_bind_okk]
        exact lockstep_F f st1 pst1 hf hR1
end

theorem RTop_enter_seg {st : TrackState} {pst : PointsState} (hR : RTop st pst) :
    RCore { st with current_points := [] }
          { pst with current_handler := none } := by
  obtain ⟨⟨h1, h2, h3, h4⟩, hpn, hcp⟩ := hR
  refine ⟨h1, fun _ => ?_, fun pt hpt => ?_, ?_⟩
  · show st.current_handler = none
    exact h2 hpn
  · exact absurd (hpn ▸ hpt : (none : Option TrackPoint) = some pt) (by simp)
  · show pst.points = st.segments.flatMap Segment.points ++ []
    rw [h4, hcp]

theorem RTop_after_stop_seg {st2 : TrackState} {pst2 : PointsState}
    (hR2 : RCore st2 pst2) (hpn2 : st2.current_point = none) :
    RTop (if st2.current_points ≠ [] then
            { st2 with segments := st2.segments ++ [Segment.new st2.current_points],
                       current_points := [] }
          else st2)
         { pst2 with current_handler := none } := by
  obtain ⟨h1, h2, h3, h4⟩ := hR2
  by_cases hne : st2.current_points = []
  · rw [if_neg (by simpa using hne)]
    refine ⟨⟨h1, fun _ => h2 hpn2, fun pt hpt => absurd (hpn2 ▸ hpt) (by simp), h4⟩,
      hpn2, hne⟩
  · rw [if_pos (by simpa using hne)]
    refine ⟨⟨h1, fun _ => h2 hpn2, fun pt hpt => ?_, ?_⟩, hpn2, rfl⟩
    · exact absurd (hpn2 ▸ hpt : (none : Option TrackPoint) = some pt) (by simp)
    · show pst2.points =
        (st2.segments ++ [Segment.new st2.current_points]).flatMap Segment.points ++ []
      rw [h4, List.flatMap_append, List.append_nil]
      simp [Segment.new]

mutual
theorem lockstepTop_N : ∀ (nd : Node) (st : TrackState) (pst : PointsState),
    allInsideN nd = true → noNestSegN nd = true → RTop st pst →
    LockRelTop (trackWalkN st nd) (pointsWalkN pst nd)
  | .elem n a cs, st, pst => by
      intro hin hnn hR
      unfold trackWalkN pointsWalkN
      by_cases hseg : n = "trkseg"
      · subst hseg
        have hcs : segFreeF cs = true := by simpa [noNestSegN] using hnn
        have hpc : pst.current = none := by rw [hR.1.1, hR.2.1]
        have hrec : ({ pst with current_handler :=
            if pst.current.isSome then find_handler "trkseg" else none } : PointsState) =
            { pst with current_handler := none } := by
          rw [hpc]
          rfl
        rw [trackStep_start_seg,
          pointsStep_start_other pst a (by decide), except_bind_okk, except_bind_okk,
          hrec]
        rcases lockstep_F cs _ _ hcs (RTop_enter_seg hR) with
          ⟨e, he1, he2⟩ | ⟨st2, pst2, hw1, hw2, hR2⟩
        · rw [he1, he2, except_bind_errr, except_bind_errr]
          exact Or.inl ⟨e, rfl, rfl⟩
        · rw [hw1, hw2, except_bind_okk, except_bind_okk, trackStep_stop_seg,
            pointsStep_stop_other pst2 (by decide)]
          have hpn2 : st2.current_point = none :=
            trackWalkF_pointNone cs { st with current_points := [] } st2 hR.2.1 hw1
          exact Or.inr ⟨_, _, rfl, rfl, RTop_after_stop_seg hR2 hpn2⟩
      · by_cases hpt : n = "trkpt"
        · subst hpt
          simp [allInsideN] at hin
        · have hin' : allInsideF cs = true := by
            simpa [allInsideN, hseg, hpt] using hin
          have hnn' : noNestSegF cs = true := by
            simpa [noNestSegN, hseg] using hnn
          obtain ⟨⟨h1, h2, h3, h4⟩, hpn, hcp⟩ := hR
          have hpc : pst.current = none := by rw [h1, hpn]
          have hrec : ({ pst with current_handler :=
              if pst.current.isSome then find_handler n else none } : PointsState) =
              { pst with current_handler := none } := by
            rw [hpc]
            rfl
          have hrec1 : (if st.current_point.isSome then
              { st with current_handler := find_handler n } else st) = st := by
            rw [hpn]
            rfl
          rw [trackStep_start_other st a hseg hpt, pointsStep_start_other pst a hpt,
            except_bind_okk, except_bind_okk, hrec, hrec1]
          have hR1 : RTop st { pst with current_handler := none } :=
            ⟨⟨h1, h2, fun pt hpt' =>
              absurd (hpn ▸ hpt' : (none : Option TrackPoint) = some pt) (by simp),
              h4⟩, hpn, hcp⟩
          rcases lockstepTop_F cs _ _ hin' hnn' hR1 with
            ⟨e, he1, he2⟩ | ⟨st2, pst2, hw1, hw2, hR2⟩
          · rw [he1, he2, except_bind_errr, except_bind_errr]
            exact Or.inl ⟨e, rfl, rfl⟩
          · rw [hw1, hw2, except_bind_okk, except_bind_okk,
              trackStep_stop_other st2 hseg hpt, pointsStep_stop_other pst2 hpt]
            obtain ⟨hRc2, hpn2, hcp2⟩ := hR2
            exact Or.inr ⟨_, _, rfl, rfl, RCore_clear_handlers hRc2, hpn2, hcp2⟩
  | .txt s, st, pst => by
      intro _ _ hR
      obtain ⟨⟨h1, h2, h3, h4⟩, hpn, hcp⟩ := hR
      have hpc : pst.current = none := by rw [h1, hpn]
      unfold trackWalkN pointsWalkN
      rw [trackStep_text_closed st s hpn, pointsStep_text_closed pst s hpc]
      exact Or.inr ⟨_, _, rfl, rfl, ⟨h1, h2, h3, h4⟩, hpn, hcp⟩
  | .misc, st, pst => by
      intro _ _ hR
      unfold trackWalkN pointsWalkN
      rw [trackStep_skip, pointsStep_skip]
      exact Or.inr ⟨_, _, rfl, rfl, hR⟩

theorem lockstepTop_F : ∀ (f : Forest) (st : TrackState) (pst : PointsState),
    allInsideF f = true → noNestSegF f = true → RTop st pst →
    LockRelTop (trackWalkF st f) (pointsWalkF pst f)
  | .nil, st, pst => by
      intro _ _ hR
      exact Or.inr ⟨_, _, rfl, rfl, hR⟩
  | .cons nd f, st, pst => by
      intro hin hnn hR
      have hin' : allInsideN nd = true ∧ allInsideF f = true := by
        simpa [allInsideF] using hin
      have hnn' : noNestSegN nd = true ∧ noNestSegF f = true := by
        simpa [noNestSegF] using hnn
      unfold trackWalkF pointsWalkF
      rcases lockstepTop_N nd st pst hin'.1 hnn'.1 hR with
        ⟨e, he1, he2⟩ | ⟨st1, pst1, hw1, hw2, hR1⟩
      · rw [he1, he2, except_bind_errr, except_bind_errr]
        exact Or.inl ⟨e, rfl, rfl⟩
      · rw [hw1, hw2, except_bind_okk, except_bind_okk]
        exact lockstepTop_F f st1 pst1 hin'.2 hnn'.2 hR1
end

/-- Counterexample to C8 as stated: in this well-formed document every
`trkpt` element lies inside a `trkseg` element, yet the concatenation of
the segment points of `parse_track` differs from the output of
`parse_track_points` — the nested `trkseg` start tag clears the open
segment buffer, dropping the first point from the track but not from the
flat list. -/
theorem nested_seg_breaks_concat_equality :
    allInsideF forestNestedSeg = true ∧
    parse_track_points (flattenForest forestNestedSeg) ≠
      (parse_track (flattenForest forestNestedSeg)).map
        (fun t => t.segments.flatMap Segment.points) := by
  constructor
  · with_unfolding_all decide
  · with_unfolding_all decide

/-- C8 (amended): for every well-formed document in which every `trkpt`
element lies inside some `trkseg` element and no `trkseg` element is
nested inside another `trkseg` element, the flat entry point returns
exactly the concatenation, in order, of the points of all segments of the
track returned by the segment-aware entry point (and both entry points
fail identically otherwise). -/
theorem track_concat_eq_flat_points (f : Forest)
    (h1 : allInsideF f = true) (h2 : noNestSegF f = true) :
    parse_track_points (flattenForest f) =
      (parse_track (flattenForest f)).map
        (fun t => t.segments.flatMap Segment.points) := by
  have hR : RTop ⟨[], [], none, none⟩ ⟨[], none, none⟩ :=
    ⟨⟨rfl, fun _ => rfl, fun pt h => by simp at h, rfl⟩, rfl, rfl⟩
  have hL := lockstepTop_F f _ _ h1 h2 hR
  unfold parse_track parse_track_points
  rw [← trackWalkF_eq, ← pointsWalkF_eq]
  rcases hL with ⟨e, he1, he2⟩ | ⟨st', pst', hw1, hw2, hR'⟩
  · rw [he1, he2]
    rfl
  · rw [hw1, hw2]
    obtain ⟨⟨_, _, _, h4⟩, _, hcp⟩ := hR'
    show Except.ok pst'.points = _
    rw [h4, hcp, List.append_nil]
    rfl

/-- Witness for the amended C8 at a concrete well-formed document with a
wrapper element, one segment and two points. -/
theorem track_concat_eq_flat_points_witness :
    parse_track_points (flattenForest forestWfSmall) =
      (parse_track (flattenForest forestWfSmall)).map
        (fun t => t.segments.flatMap Segment.points) :=
  track_concat_eq_flat_points forestWfSmall
    (by with_unfolding_all decide) (by with_unfolding_all decide)

theorem except_map_ok {ε α β : Type} (g : α → β) (a : α) :
    Except.map g (Except.ok a : Except ε α) = Except.ok (g a) := rfl

theorem except_map_err {ε α β : Type} (g : α → β) (e : ε) :
    Except.map g (Except.error e : Except ε α) = Except.error e := rfl

theorem except_map_bind {ε α β γ : Type} (g : α → β) (x : Except ε α)
    (k : β → Except ε γ) :
    (Except.map g x >>= k) = x >>= fun a => k (g a) := by cases x <;> rfl

theorem pointsWalkN_elem (st : PointsState) (n : String) (a : List (String × String))
    (cs : Forest) :
    pointsWalkN st (.elem n a cs) = (do
      let s1 ← pointsStep st (.start n a)
      let s2 ← pointsWalkF s1 cs
      pointsStep s2 (.stop n)) := rfl

theorem pointsWalkN_txt (st : PointsState) (s : String) :
    pointsWalkN st (.txt s) = pointsStep st (.text s) := rfl

theorem pointsWalkN_misc (st : PointsState) : pointsWalkN st .misc = pointsStep st .skip := rfl

theorem pointsWalkF_nil (st : PointsState) : pointsWalkF st .nil = .ok st := rfl

theorem pointsWalkF_cons (st : PointsState) (nd : Node) (f : Forest) :
    pointsWalkF st (.cons nd f) = (do
      let s1 ← pointsWalkN st nd
      pointsWalkF s1 f) := rfl

theorem trackWalkN_elem (st : TrackState) (n : String) (a : List (String × String))
    (cs : Forest) :
    trackWalkN st (.elem n a cs) = (do
      let s1 ← trackStep st (.start n a)
      let s2 ← trackWalkF s1 cs
      trackStep s2 (.stop n)) := rfl

theorem trackWalkN_txt (st : TrackState) (s : String) :
    trackWalkN st (.txt s) = trackStep st (.text s) := rfl

theorem trackWalkN_misc (st : TrackState) : trackWalkN st .misc = trackStep st .skip := rfl

theorem trackWalkF_nil (st : TrackState) : trackWalkF st .nil = .ok st := rfl

theorem trackWalkF_cons (st : TrackState) (nd : Node) (f : Forest) :
    trackWalkF st (.cons nd f) = (do
      let s1 ← trackWalkN st nd
      trackWalkF s1 f) := rfl

theorem flatBuildN_elem (pt : TrackPoint) (h : Option Applyfn) (n : String)
    (a : List (String × String)) (cs : Forest) :
    flatBuildN pt h (.elem n a cs) = (do
      let r ← flatBuildF pt (find_handler n) cs
      Except.ok (r.1, none)) := rfl

theorem flatBuildN_txt_some (pt : TrackPoint) (f : Applyfn) (s : String) :
    flatBuildN pt (some f) (.txt s) = (do
      let pt' ← f pt s
      Except.ok (pt', some f)) := rfl

theorem flatBuildN_txt_none (pt : TrackPoint) (s : String) :
    flatBuildN pt none (.txt s) = .ok (pt, none) := rfl

theorem flatBuildN_misc (pt : TrackPoint) (h : Option Applyfn) :
    flatBuildN pt h .misc = .ok (pt, h) := rfl

theorem flatBuildF_nil (pt : TrackPoint) (h : Option Applyfn) :
    flatBuildF pt h .nil = .ok (pt, h) := rfl

theorem flatBuildF_cons (pt : TrackPoint) (h : Option Applyfn) (nd : Node) (f : Forest) :
    flatBuildF pt h (.cons nd f) = (do
      let r ← flatBuildN pt h nd
      flatBuildF r.1 r.2 f) := rfl

theorem allFlatN_pt (a : List (String × String)) (cs : Forest) :
    allFlatN (.elem "trkpt" a cs) = (do
      let pt0 ← parse_trkpt a
      let r ← flatBuildF pt0 none cs
      Except.ok [r.1]) := by simp [allFlatN]

theorem allFlatN_other {n : String} (a : List (String × String)) (cs : Forest)
    (h : n ≠ "trkpt") : allFlatN (.elem n a cs) = allFlatF cs := by
  simp [allFlatN, h]

theorem allFlatN_txt (s : String) : allFlatN (.txt s) = .ok [] := rfl

theorem allFlatN_misc : allFlatN .misc = .ok [] := rfl

theorem allFlatF_nil : allFlatF .nil = .ok [] := rfl

theorem allFlatF_cons (nd : Node) (f : Forest) :
    allFlatF (.cons nd f) = (do
      let l1 ← allFlatN nd
      let l2 ← allFlatF f
      Except.ok (l1 ++ l2)) := rfl

mutual
theorem flatBuild_char_N : ∀ (nd : Node) (pts : List TrackPoint) (pt : TrackPoint)
    (h : Option Applyfn), trkptFreeN nd = true →
    pointsWalkN ⟨pts, some pt, h⟩ nd =
      (flatBuildN pt h nd).map (fun r => ⟨pts, some r.1, r.2⟩)
  | .elem n a cs, pts, pt, h => by
      intro hfree
      have hfree' : ¬n = "trkpt" ∧ trkptFreeF cs = true := by
        simpa [trkptFreeN] using hfree
      obtain ⟨hn, hcs⟩ := hfree'
      rw [pointsWalkN_elem, flatBuildN_elem, pointsStep_start_other _ a hn,
        except_bind_okk]
      show (pointsWalkF ⟨pts, some pt, find_handler n⟩ cs >>= _) = _
      rw [flatBuild_char_F cs pts pt (find_handler n) hcs, except_map_bind]
      cases hb : flatBuildF pt (find_handler n) cs with
      | error e => rfl
      | ok r =>
          rw [except_bind_okk, except_bind_okk, except_map_ok,
            pointsStep_stop_other _ hn]
  | .txt s, pts, pt, h => by
      intro _
      cases h with
      | none =>
          rw [pointsWalkN_txt, flatBuildN_txt_none,
            pointsStep_text_unbound _ s rfl]
          rfl
      | some f =>
          rw [pointsWalkN_txt, flatBuildN_txt_some,
            pointsStep_text_apply _ s rfl rfl]
          cases hap : f pt s with
          | error e => rfl
          | ok pt' => rfl
  | .misc, pts, pt, h => by
      intro _
      rw [pointsWalkN_misc, pointsStep_skip]
      rfl

theorem flatBuild_char_F : ∀ (cs : Forest) (pts : List TrackPoint) (pt : TrackPoint)
    (h : Option Applyfn), trkptFreeF cs = true →
    pointsWalkF ⟨pts, some pt, h⟩ cs =
      (flatBuildF pt h cs).map (fun r => ⟨pts, some r.1, r.2⟩)
  | .nil, pts, pt, h => by
      intro _
      rfl
  | .cons nd f, pts, pt, h => by
      intro hfree
      have hfree' : trkptFreeN nd = true ∧ trkptFreeF f = true := by
        simpa [trkptFreeF] using hfree
      obtain ⟨hnd, hf⟩ := hfree'
      rw [pointsWalkF_cons, flatBuildF_cons, flatBuild_char_N nd pts pt h hnd,
        except_map_bind]
      cases hb : flatBuildN pt h nd with
      | error e => rfl
      | ok r =>
          rw [except_bind_okk, except_bind_okk]
          exact flatBuild_char_F f pts r.1 r.2 hf
end

mutual
theorem allFlat_char_N : ∀ (nd : Node) (pts : List TrackPoint) (h : Option Applyfn),
    noNestPtN nd = true →
    ∃ h', pointsWalkN ⟨pts, none, h⟩ nd =
      (allFlatN nd).map (fun l => ⟨pts ++ l, none, h'⟩)
  | .elem n a cs, pts, h => by
      intro hok
      by_cases hn : n = "trkpt"
      · subst hn
        have hcs : trkptFreeF cs = true := by simpa [noNestPtN] using hok
        rw [pointsWalkN_elem, allFlatN_pt]
        cases hp : parse_trkpt a with
        | error e0 =>
            refine ⟨none, ?_⟩
            rw [pointsStep_start_pt_err _ hp, except_bind_errr, except_bind_errr,
              except_map_err]
        | ok pt0 =>
            rw [pointsStep_start_pt _ hp, except_bind_okk, except_bind_okk]
            show ∃ h', (pointsWalkF ⟨pts, some pt0, none⟩ cs >>=
                fun s2 => pointsStep s2 (.stop "trkpt")) =
              Except.map (fun l => (⟨pts ++ l, none, h'⟩ : PointsState))
                (flatBuildF pt0 none cs >>= fun r => Except.ok [r.1])
            rw [flatBuild_char_F cs pts pt0 none hcs, except_map_bind]
            cases hb : flatBuildF pt0 none cs with
            | error e => exact ⟨none, rfl⟩
            | ok r =>
                refine ⟨r.2, ?_⟩
                rw [except_bind_okk, except_bind_okk]
                rfl
      · have hcs : noNestPtF cs = true := by simpa [noNestPtN, hn] using hok
        rw [pointsWalkN_elem, allFlatN_other a cs hn,
          pointsStep_start_other _ a hn, except_bind_okk]
        show ∃ h', (pointsWalkF ⟨pts, none, none⟩ cs >>=
            fun s2 => pointsStep s2 (.stop n)) =
          Except.map (fun l => (⟨pts ++ l, none, h'⟩ : PointsState)) (allFlatF cs)
        rcases allFlat_char_F cs pts none hcs with ⟨h'', hw⟩
        rw [hw, except_map_bind]
        cases hb : allFlatF cs with
        | error e => exact ⟨none, rfl⟩
        | ok l =>
            refine ⟨none, ?_⟩
            rw [except_bind_okk, except_map_ok, pointsStep_stop_other _ hn]
  | .txt s, pts, h => by
      intro _
      refine ⟨h, ?_⟩
      rw [pointsWalkN_txt, allFlatN_txt, pointsStep_text_closed _ s rfl,
        except_map_ok, List.append_nil]
  | .misc, pts, h => by
      intro _
      refine ⟨h, ?_⟩
      rw [pointsWalkN_misc, allFlatN_misc, pointsStep_skip, except_map_ok,
        List.append_nil]

theorem allFlat_char_F : ∀ (f : Forest) (pts : List TrackPoint) (h : Option Applyfn),
    noNestPtF f = true →
    ∃ h', pointsWalkF ⟨pts, none, h⟩ f =
      (allFlatF f).map (fun l => ⟨pts ++ l, none, h'⟩)
  | .nil, pts, h => by
      intro _
      refine ⟨h, ?_⟩
      rw [pointsWalkF_nil, allFlatF_nil, except_map_ok, List.append_nil]
  | .cons nd f, pts, h => by
      intro hok
      have hok' : noNestPtN nd = true ∧ noNestPtF f = true := by
        simpa [noNestPtF] using hok
      obtain ⟨hnd, hf⟩ := hok'
      rw [pointsWalkF_cons, allFlatF_cons]
      rcases allFlat_char_N nd pts h hnd with ⟨h1, hw1⟩
      rw [hw1, except_map_bind]
      cases hb1 : allFlatN nd with
      | error e => exact ⟨none, rfl⟩
      | ok l1 =>
          rw [except_bind_okk, except_bind_okk]
          show ∃ h', pointsWalkF ⟨pts ++ l1, none, h1⟩ f =
            Except.map (fun l => (⟨pts ++ l, none, h'⟩ : PointsState))
              (allFlatF f >>= fun l2 => Except.ok (l1 ++ l2))
          rcases allFlat_char_F f (pts ++ l1) h1 hf with ⟨h2, hw2⟩
          rw [hw2]
          cases hb2 : allFlatF f with
          | error e => exact ⟨none, rfl⟩
          | ok l2 =>
              refine ⟨h2, ?_⟩
              rw [except_bind_okk, except_map_ok, except_map_ok,
                List.append_assoc]
end

theorem trackBuildN_seg (pt : TrackPoint) (h : Option Applyfn)
    (a : List (String × String)) (cs : Forest) :
    trackBuildN pt h (.elem "trkseg" a cs) = trackBuildF pt h cs := by
  simp [trackBuildN]

theorem trackBuildN_other (pt : TrackPoint) (h : Option Applyfn) {n : String}
    (a : List (String × String)) (cs : Forest) (hn : n ≠ "trkseg") :
    trackBuildN pt h (.elem n a cs) = (do
      let r ← trackBuildF pt (find_handler n) cs
      Except.ok (r.1, none)) := by
  simp [trackBuildN, hn]

theorem trackBuildN_txt_some (pt : TrackPoint) (f : Applyfn) (s : String) :
    trackBuildN pt (some f) (.txt s) = (do
      let pt' ← f pt s
      Except.ok (pt', some f)) := rfl

theorem trackBuildN_txt_none (pt : TrackPoint) (s : String) :
    trackBuildN pt none (.txt s) = .ok (pt, none) := rfl

theorem trackBuildN_misc (pt : TrackPoint) (h : Option Applyfn) :
    trackBuildN pt h .misc = .ok (pt, h) := rfl

theorem trackBuildF_nil (pt : TrackPoint) (h : Option Applyfn) :
    trackBuildF pt h .nil = .ok (pt, h) := rfl

theorem trackBuildF_cons (pt : TrackPoint) (h : Option Applyfn) (nd : Node)
    (f : Forest) :
    trackBuildF pt h (.cons nd f) = (do
      let r ← trackBuildN pt h nd
      trackBuildF r.1 r.2 f) := rfl

mutual
theorem trackBuild_char_N : ∀ (nd : Node) (st : TrackState) (pt : TrackPoint),
    trkptFreeN nd = true → st.current_point = some pt →
    TBRel st (trackBuildN pt st.current_handler nd) (trackWalkN st nd)
  | .elem n a cs, st, pt => by
      intro hfree hcp
      have hfree' : ¬n = "trkpt" ∧ trkptFreeF cs = true := by
        simpa [trkptFreeN] using hfree
      obtain ⟨hn, hcs⟩ := hfree'
      by_cases hseg : n = "trkseg"
      · subst hseg
        rw [trackBuildN_seg, trackWalkN_elem, trackStep_start_seg, except_bind_okk]
        have hIH := trackBuild_char_F cs { st with current_points := [] } pt hcs hcp
        rcases hIH with ⟨e, hb, hw⟩ | ⟨pt', h', st2, hb, hw, hp2, hh2, hs2, hc2⟩
        · rw [hw, except_bind_errr]
          exact Or.inl ⟨e, hb, rfl⟩
        · rw [hw, except_bind_okk, trackStep_stop_seg]
          have hnilc : st2.current_points = [] :=
            List.eq_nil_iff_forall_not_mem.mpr
              (fun x hx => absurd (hc2 x hx) (List.not_mem_nil x))
          rw [hnilc]
          simp only [ne_eq, not_true_eq_false, if_false]
          exact Or.inr ⟨pt', h', st2, hb, rfl, hp2, hh2, hs2,
            fun x hx => absurd ((hnilc ▸ hx : x ∈ ([] : List TrackPoint)))
              (List.not_mem_nil x)⟩
      · rw [trackBuildN_other _ _ a cs hseg, trackWalkN_elem,
          trackStep_start_other st a hseg hn, except_bind_okk]
        have hsome : st.current_point.isSome = true := by rw [hcp]; rfl
        rw [if_pos hsome]
        have hIH := trackBuild_char_F cs { st with current_handler := find_handler n }
          pt hcs hcp
        rcases hIH with ⟨e, hb, hw⟩ | ⟨pt', h', st2, hb, hw, hp2, hh2, hs2, hc2⟩
        · rw [hw, except_bind_errr, hb, except_bind_errr]
          exact Or.inl ⟨e, rfl, rfl⟩
        · rw [hw, except_bind_okk, hb, except_bind_okk,
            trackStep_stop_other st2 hseg hn]
          exact Or.inr ⟨pt', none, { st2 with current_handler := none },
            rfl, rfl, hp2, rfl, hs2, hc2⟩
  | .txt s, st, pt => by
      intro _ hcp
      cases hh : st.current_handler with
      | none =>
          rw [trackWalkN_txt, trackStep_text_unbound st s hh, trackBuildN_txt_none]
          exact Or.inr ⟨pt, none, st, rfl, rfl, hcp, hh, rfl, fun x hx => hx⟩
      | some f =>
          rw [trackWalkN_txt, trackStep_text_apply st s hcp hh, trackBuildN_txt_some]
          cases hap : f pt s with
          | error e =>
              rw [except_bind_errr, except_bind_errr]
              exact Or.inl ⟨e, rfl, rfl⟩
          | ok p' =>
              rw [except_bind_okk, except_bind_okk]
              exact Or.inr ⟨p', some f, { st with current_point := some p' },
                rfl, rfl, rfl, hh, rfl, fun x hx => hx⟩
  | .misc, st, pt => by
      intro _ hcp
      rw [trackWalkN_misc, trackStep_skip, trackBuildN_misc]
      exact Or.inr ⟨pt, st.current_handler, st, rfl, rfl, hcp, rfl, rfl,
        fun x hx => hx⟩

theorem trackBuild_char_F : ∀ (cs : Forest) (st : TrackState) (pt : TrackPoint),
    trkptFreeF cs = true → st.current_point = some pt →
    TBRel st (trackBuildF pt st.current_handler cs) (trackWalkF st cs)
  | .nil, st, pt => by
      intro _ hcp
      rw [trackWalkF_nil, trackBuildF_nil]
      exact Or.inr ⟨pt, st.current_handler, st, rfl, rfl, hcp, rfl, rfl,
        fun x hx => hx⟩
  | .cons nd f, st, pt => by
      intro hfree hcp
      have hfree' : trkptFreeN nd = true ∧ trkptFreeF f = true := by
        simpa [trkptFreeF] using hfree
      obtain ⟨hnd, hf⟩ := hfree'
      rw [trackWalkF_cons, trackBuildF_cons]
      rcases trackBuild_char_N nd st pt hnd hcp with
        ⟨e, hb, hw⟩ | ⟨pt1, h1, st1, hb, hw, hp1, hh1, hs1, hc1⟩
      · rw [hw, except_bind_errr, hb, except_bind_errr]
        exact Or.inl ⟨e, rfl, rfl⟩
      · rw [hw, except_bind_okk, hb, except_bind_okk]
        have hIH := trackBuild_char_F f st1 pt1 hf hp1
        rw [hh1] at hIH
        rcases hIH with ⟨e, hb2, hw2⟩ | ⟨pt2, h2, st2, hb2, hw2, hp2, hh2, hs2, hc2⟩
        · rw [hw2, hb2]
          exact Or.inl ⟨e, rfl, rfl⟩
        · rw [hw2, hb2]
          exact Or.inr ⟨pt2, h2, st2, rfl, rfl, hp2, hh2, hs1 ▸ hs2,
            fun x hx => hc1 x (hc2 x hx)⟩
end

theorem allTrackValsN_pt (a : List (String × String)) (cs : Forest) :
    allTrackValsN (.elem "trkpt" a cs) = builtValue a cs := by
  simp [allTrackValsN]

theorem allTrackValsN_other {n : String} (a : List (String × String)) (cs : Forest)
    (hn : n ≠ "trkpt") : allTrackValsN (.elem n a cs) = allTrackValsF cs := by
  simp [allTrackValsN, hn]

theorem allTrackValsF_cons (nd : Node) (f : Forest) :
    allTrackValsF (.cons nd f) = allTrackValsN nd ++ allTrackValsF f := rfl

theorem insideValsN_seg (a : List (String × String)) (cs : Forest) :
    insideValsN (.elem "trkseg" a cs) = allTrackValsF cs := by
  simp [insideValsN]

theorem insideValsN_pt (a : List (String × String)) (cs : Forest) :
    insideValsN (.elem "trkpt" a cs) = [] := by
  simp [insideValsN]

theorem insideValsN_other {n : String} (a : List (String × String)) (cs : Forest)
    (h1 : n ≠ "trkseg") (h2 : n ≠ "trkpt") :
    insideValsN (.elem n a cs) = insideValsF cs := by
  simp [insideValsN, h1, h2]

theorem insideValsF_cons (nd : Node) (f : Forest) :
    insideValsF (.cons nd f) = insideValsN nd ++ insideValsF f := rfl

theorem builtValue_ok {a : List (String × String)} {cs : Forest} {pt0 pt' : TrackPoint}
    {h' : Option Applyfn} (hp : parse_trkpt a = .ok pt0)
    (hb : trackBuildF pt0 none cs = .ok (pt', h')) :
    builtValue a cs = [pt'] := by
  unfold builtValue
  rw [hp, except_bind_okk, hb]

mutual
theorem inseg_mem_N : ∀ (nd : Node) (st st' : TrackState),
    noNestPtN nd = true → st.current_point = none → trackWalkN st nd = .ok st' →
    st'.current_point = none ∧
    ∀ x ∈ st'.segments.flatMap Segment.points ++ st'.current_points,
      x ∈ st.segments.flatMap Segment.points ++ st.current_points ∨
        x ∈ allTrackValsN nd
  | .elem n a cs, st, st' => by
      intro hok hcp0 hw
      rw [trackWalkN_elem] at hw
      by_cases hpt : n = "trkpt"
      · subst hpt
        have hcs : trkptFreeF cs = true := by simpa [noNestPtN] using hok
        cases hp : parse_trkpt a with
        | error e0 =>
            rw [trackStep_start_pt_err st hp, except_bind_errr] at hw
            simp at hw
        | ok pt0 =>
            rw [trackStep_start_pt st hp, except_bind_okk] at hw
            cases h2 : trackWalkF ⟨st.segments, st.current_points, none, some pt0⟩ cs with
            | error e1 => rw [h2, except_bind_errr] at hw; simp at hw
            | ok st2 =>
                rw [h2, except_bind_okk, trackStep_stop_pt] at hw
                have hTB := trackBuild_char_F cs
                  ⟨st.segments, st.current_points, none, some pt0⟩ pt0 hcs rfl
                rcases hTB with ⟨e, _, hwe⟩ | ⟨pt', h', st2', hb, hw2, hp2, _, hs2, hc2⟩
                · rw [h2] at hwe; simp at hwe
                · rw [h2] at hw2
                  injection hw2 with hw2
                  subst hw2
                  rw [hp2] at hw
                  injection hw with hw
                  subst hw
                  refine ⟨rfl, ?_⟩
                  intro x hx
                  rcases List.mem_append.mp hx with hx | hx
                  · left
                    exact List.mem_append_left _ (hs2 ▸ hx)
                  · rcases List.mem_append.mp hx with hx | hx
                    · left
                      exact List.mem_append_right _ (hc2 x hx)
                    · right
                      rw [List.mem_singleton.mp hx, allTrackValsN_pt,
                        builtValue_ok hp hb]
                      exact List.mem_singleton.mpr rfl
      · have hcs : noNestPtF cs = true := by simpa [noNestPtN, hpt] using hok
        by_cases hseg : n = "trkseg"
        · subst hseg
          rw [trackStep_start_seg, except_bind_okk] at hw
          cases h2 : trackWalkF { st with current_points := [] } cs with
          | error e1 => rw [h2, except_bind_errr] at hw; simp at hw
          | ok st2 =>
              rw [h2, except_bind_okk, trackStep_stop_seg] at hw
              have hIH := inseg_mem_F cs { st with current_points := [] } st2
                hcs hcp0 h2
              obtain ⟨hp2, hmem⟩ := hIH
              have hgoal : ∀ x ∈ st2.segments.flatMap Segment.points ++
                  st2.current_points,
                  x ∈ st.segments.flatMap Segment.points ++ st.current_points ∨
                    x ∈ allTrackValsN (.elem "trkseg" a cs) := by
                intro x hx
                rcases hmem x hx with hx' | hx'
                · rcases List.mem_append.mp hx' with hx'' | hx''
                  · exact Or.inl (List.mem_append_left _ hx'')
                  · exact absurd hx'' (List.not_mem_nil x)
                · right
                  rw [allTrackValsN_other a cs (by decide)]
                  exact hx'
              by_cases hne : st2.current_points = []
              · rw [if_neg (by simpa using hne)] at hw
                injection hw with hw
                subst hw
                refine ⟨hp2, ?_⟩
                intro x hx
                exact hgoal x hx
              · rw [if_pos (by simpa using hne)] at hw
                injection hw with hw
                subst hw
                refine ⟨hp2, ?_⟩
                intro x hx
                refine hgoal x ?_
                rw [List.append_nil] at hx
                rw [List.flatMap_append] at hx
                rcases List.mem_append.mp hx with hx' | hx'
                · exact List.mem_append_left _ hx'
                · refine List.mem_append_right _ ?_
                  simpa [Segment.new] using hx'
        · rw [trackStep_start_other st a hseg hpt, except_bind_okk] at hw
          have hrec : (if st.current_point.isSome then
              { st with current_handler := find_handler n } else st) = st := by
            rw [hcp0]
            rfl
          rw [hrec] at hw
          cases h2 : trackWalkF st cs with
          | error e1 => rw [h2, except_bind_errr] at hw; simp at hw
          | ok st2 =>
              rw [h2, except_bind_okk, trackStep_stop_other st2 hseg hpt] at hw
              injection hw with hw
              subst hw
              have hIH := inseg_mem_F cs st st2 hcs hcp0 h2
              refine ⟨hIH.1, ?_⟩
              intro x hx
              rcases hIH.2 x hx with hx' | hx'
              · exact Or.inl hx'
              · right
                rw [allTrackValsN_other a cs hpt]
                exact hx'
  | .txt s, st, st' => by
      intro _ hcp0 hw
      rw [trackWalkN_txt, trackStep_text_closed st s hcp0] at hw
      injection hw with hw
      subst hw
      exact ⟨hcp0, fun x hx => Or.inl hx⟩
  | .misc, st, st' => by
      intro _ hcp0 hw
      rw [trackWalkN_misc, trackStep_skip] at hw
      injection hw with hw
      subst hw
      exact ⟨hcp0, fun x hx => Or.inl hx⟩

theorem inseg_mem_F : ∀ (f : Forest) (st st' : TrackState),
    noNestPtF f = true → st.current_point = none → trackWalkF st f = .ok st' →
    st'.current_point = none ∧
    ∀ x ∈ st'.segments.flatMap Segment.points ++ st'.current_points,
      x ∈ st.segments.flatMap Segment.points ++ st.current_points ∨
        x ∈ allTrackValsF f
  | .nil, st, st' => by
      intro _ hcp0 hw
      rw [trackWalkF_nil] at hw
      injection hw with hw
      subst hw
      exact ⟨hcp0, fun x hx => Or.inl hx⟩
  | .cons nd f, st, st' => by
      intro hok hcp0 hw
      have hok' : noNestPtN nd = true ∧ noNestPtF f = true := by
        simpa [noNestPtF] using hok
      obtain ⟨hnd, hf⟩ := hok'
      rw [trackWalkF_cons] at hw
      cases h1 : trackWalkN st nd with
      | error e0 => rw [h1, except_bind_errr] at hw; simp at hw
      | ok st1 =>
          rw [h1, except_bind_okk] at hw
          have hN := inseg_mem_N nd st st1 hnd hcp0 h1
          have hF := inseg_mem_F f st1 st' hf hN.1 hw
          refine ⟨hF.1, ?_⟩
          intro x hx
          rw [allTrackValsF_cons]
          rcases hF.2 x hx with hx' | hx'
          · rcases hN.2 x hx' with hx'' | hx''
            · exact Or.inl hx''
            · exact Or.inr (List.mem_append_left _ hx'')
          · exact Or.inr (List.mem_append_right _ hx')
end

mutual
theorem top_mem_N : ∀ (nd : Node) (st st' : TrackState),
    noNestPtN nd = true → st.current_point = none → trackWalkN st nd = .ok st' →
    st'.current_point = none ∧
    ∀ x ∈ st'.segments.flatMap Segment.points,
      x ∈ st.segments.flatMap Segment.points ∨ x ∈ insideValsN nd
  | .elem n a cs, st, st' => by
      intro hok hcp0 hw
      rw [trackWalkN_elem] at hw
      by_cases hpt : n = "trkpt"
      · subst hpt
        have hcs : trkptFreeF cs = true := by simpa [noNestPtN] using hok
        cases hp : parse_trkpt a with
        | error e0 =>
            rw [trackStep_start_pt_err st hp, except_bind_errr] at hw
            simp at hw
        | ok pt0 =>
            rw [trackStep_start_pt st hp, except_bind_okk] at hw
            cases h2 : trackWalkF ⟨st.segments, st.current_points, none, some pt0⟩ cs with
            | error e1 => rw [h2, except_bind_errr] at hw; simp at hw
            | ok st2 =>
                rw [h2, except_bind_okk, trackStep_stop_pt] at hw
                have hTB := trackBuild_char_F cs
                  ⟨st.segments, st.current_points, none, some pt0⟩ pt0 hcs rfl
                rcases hTB with ⟨e, _, hwe⟩ | ⟨pt', h', st2', hb, hw2, hp2, _, hs2, hc2⟩
                · rw [h2] at hwe; simp at hwe
                · rw [h2] at hw2
                  injection hw2 with hw2
                  subst hw2
                  rw [hp2] at hw
                  injection hw with hw
                  subst hw
                  refine ⟨rfl, ?_⟩
                  intro x hx
                  left
                  exact hs2 ▸ hx
      · have hcs : noNestPtF cs = true := by simpa [noNestPtN, hpt] using hok
        by_cases hseg : n = "trkseg"
        · subst hseg
          rw [trackStep_start_seg, except_bind_okk] at hw
          cases h2 : trackWalkF { st with current_points := [] } cs with
          | error e1 => rw [h2, except_bind_errr] at hw; simp at hw
          | ok st2 =>
              rw [h2, except_bind_okk, trackStep_stop_seg] at hw
              have hIH := inseg_mem_F cs { st with current_points := [] } st2
                hcs hcp0 h2
              obtain ⟨hp2, hmem⟩ := hIH
              have hgoal : ∀ x ∈ st2.segments.flatMap Segment.points ++
                  st2.current_points,
                  x ∈ st.segments.flatMap Segment.points ∨
                    x ∈ insideValsN (.elem "trkseg" a cs) := by
                intro x hx
                rcases hmem x hx with hx' | hx'
                · rcases List.mem_append.mp hx' with hx'' | hx''
                  · exact Or.inl hx''
                  · exact absurd hx'' (List.not_mem_nil x)
                · right
                  rw [insideValsN_seg]
                  exact hx'
              by_cases hne : st2.current_points = []
              · rw [if_neg (by simpa using hne)] at hw
                injection hw with hw
                subst hw
                exact ⟨hp2, fun x hx => hgoal x (List.mem_append_left _ hx)⟩
              · rw [if_pos (by simpa using hne)] at hw
                injection hw with hw
                subst hw
                refine ⟨hp2, ?_⟩
                intro x hx
                refine hgoal x ?_
                rw [List.flatMap_append] at hx
                rcases List.mem_append.mp hx with hx' | hx'
                · exact List.mem_append_left _ hx'
                · refine List.mem_append_right _ ?_
                  simpa [Segment.new] using hx'
        · rw [trackStep_start_other st a hseg hpt, except_bind_okk] at hw
          have hrec : (if st.current_point.isSome then
              { st with current_handler := find_handler n } else st) = st := by
            rw [hcp0]
            rfl
          rw [hrec] at hw
          cases h2 : trackWalkF st cs with
          | error e1 => rw [h2, except_bind_errr] at hw; simp at hw
          | ok st2 =>
              rw [h2, except_bind_okk, trackStep_stop_other st2 hseg hpt] at hw
              injection hw with hw
              subst hw
              have hIH := top_mem_F cs st st2 hcs hcp0 h2
              refine ⟨hIH.1, ?_⟩
              intro x hx
              rcases hIH.2 x hx with hx' | hx'
              · exact Or.inl hx'
              · right
                rw [insideValsN_other a cs hseg hpt]
                exact hx'
  | .txt s, st, st' => by
      intro _ hcp0 hw
      rw [trackWalkN_txt, trackStep_text_closed st s hcp0] at hw
      injection hw with hw
      subst hw
      exact ⟨hcp0, fun x hx => Or.inl hx⟩
  | .misc, st, st' => by
      intro _ hcp0 hw
      rw [trackWalkN_misc, trackStep_skip] at hw
      injection hw with hw
      subst hw
      exact ⟨hcp0, fun x hx => Or.inl hx⟩

theorem top_mem_F : ∀ (f : Forest) (st st' : TrackState),
    noNestPtF f = true → st.current_point = none → trackWalkF st f = .ok st' →
    st'.current_point = none ∧
    ∀ x ∈ st'.segments.flatMap Segment.points,
      x ∈ st.segments.flatMap Segment.points ∨ x ∈ insideValsF f
  | .nil, st, st' => by
      intro _ hcp0 hw
      rw [trackWalkF_nil] at hw
      injection hw with hw
      subst hw
      exact ⟨hcp0, fun x hx => Or.inl hx⟩
  | .cons nd f, st, st' => by
      intro hok hcp0 hw
      have hok' : noNestPtN nd = true ∧ noNestPtF f = true := by
        simpa [noNestPtF] using hok
      obtain ⟨hnd, hf⟩ := hok'
      rw [trackWalkF_cons] at hw
      cases h1 : trackWalkN st nd with
      | error e0 => rw [h1, except_bind_errr] at hw; simp at hw
      | ok st1 =>
          rw [h1, except_bind_okk] at hw
          have hN := top_mem_N nd st st1 hnd hcp0 h1
          have hF := top_mem_F f st1 st' hf hN.1 hw
          refine ⟨hF.1, ?_⟩
          intro x hx
          rw [insideValsF_cons]
          rcases hF.2 x hx with hx' | hx'
          · rcases hN.2 x hx' with hx'' | hx''
            · exact Or.inl hx''
            · exact Or.inr (List.mem_append_left _ hx'')
          · exact Or.inr (List.mem_append_right _ hx')
end

/-- Counterexample to C4 as stated: in this well-formed document the outer
`trkpt` element, with `lat = lon = 1`, is not enclosed in any `trkseg`
element (indeed no `trkseg` exists), yet the flat entry point does not
include it: the nested `trkpt` start tag replaces the point under
construction, so only the inner point appears in the output. -/
theorem nested_trkpt_missing_from_flat_output :
    allInsideF forestNestedPt = false ∧
    parse_track_points (flattenForest forestNestedPt) = .ok [⟨2, 2, none, none⟩] ∧
    (⟨1, 1, none, none⟩ : TrackPoint) ∉ ([⟨2, 2, none, none⟩] : List TrackPoint) := by
  refine ⟨?_, ?_, ?_⟩ <;> with_unfolding_all decide

/-- C4 (amended): for every well-formed document in which no `trkpt`
element is nested inside another `trkpt` element, the flat entry point
returns exactly the points of all `trkpt` elements in document order
(`allFlatF` — which places a point element not enclosed in any `trkseg`
at its document position), while every point of every segment of the track
returned by the segment-aware entry point is the built point of some
`trkpt` element that is enclosed in a `trkseg` element — so a point
outside every `trkseg` is included by the flat entry point and omitted
from every segment of the track. -/
theorem flat_keeps_all_points_track_keeps_inside (f : Forest)
    (hok : noNestPtF f = true) :
    (∀ ps, parse_track_points (flattenForest f) = .ok ps → allFlatF f = .ok ps) ∧
    (∀ t, parse_track (flattenForest f) = .ok t →
      ∀ p ∈ t.segments.flatMap Segment.points, p ∈ insideValsF f) := by
  constructor
  · intro ps hps
    unfold parse_track_points at hps
    rw [← pointsWalkF_eq] at hps
    rcases allFlat_char_F f [] none hok with ⟨h', hw⟩
    rw [hw] at hps
    cases hb : allFlatF f with
    | error e => rw [hb, except_map_err] at hps; simp at hps
    | ok l =>
        rw [hb, except_map_ok] at hps
        have : ([] : List TrackPoint) ++ l = ps := by injection hps
        rw [← this, List.nil_append]
  · intro t ht p hp
    unfold parse_track at ht
    rw [← trackWalkF_eq] at ht
    cases hw : trackWalkF ⟨[], [], none, none⟩ f with
    | error e => rw [hw] at ht; simp at ht
    | ok st' =>
        rw [hw] at ht
        injection ht with ht
        subst ht
        have hT := top_mem_F f ⟨[], [], none, none⟩ st' hok rfl hw
        rcases hT.2 p hp with hP | hP
        · simp at hP
        · exact hP

/-- Witness for the amended C4 at `forestOutside`, whose first point lies
outside every segment: the flat entry point keeps both points in document
order and the track keeps only the segment point. -/
theorem flat_keeps_all_points_track_keeps_inside_witness :
    allFlatF forestOutside = .ok [⟨9, 9, none, none⟩, ⟨1, 2, none, none⟩] ∧
    (⟨1, 2, none, none⟩ : TrackPoint) ∈ insideValsF forestOutside :=
  ⟨(flat_keeps_all_points_track_keeps_inside forestOutside
      (by with_unfolding_all decide)).1 _ (by with_unfolding_all decide),
   (flat_keeps_all_points_track_keeps_inside forestOutside
      (by with_unfolding_all decide)).2
     (Track.new [Segment.new [⟨1, 2, none, none⟩]])
     (by with_unfolding_all decide) _ (by with_unfolding_all decide)⟩
